import Mathlib

/-!
Shallow embedding of the SchedWise allocation engine
(`src/ml_scheduler.py`, class `ReinforcementLearningScheduler`) and proofs
about its specified properties.

Modelling conventions:
* Python `datetime.time` values are represented as minutes since midnight
  (`Nat`); comparison of `time(h, m)` objects is lexicographic on `(h, m)`,
  which coincides with comparison of total minutes.
* Python dictionaries keyed by entity ids are association lists; an indexing
  access `d[k]` that can raise `KeyError` is a fallible lookup in the
  `Except SchedErr` monad, while `d.get(k, v)` is a total lookup with
  default.  The inner per-day dictionaries always carry all five weekday
  keys, so they are total functions `Day → List TimeSlot`.
* `None`-able strings (`employment_type`, `specialization`, `course_type`)
  are plain strings: every use in the source first coerces `None` to `''`
  (via `x or ''` / truthiness guards), so `None` and `''` are
  indistinguishable.
* The source appends each placed session both to a flat `schedules_list`
  and to a per-section weekly grid; both records are built from the same
  local data at the same program point.  The embedding keeps a single
  session record carrying the union of the recorded fields that the claims
  refer to (ids, day, slot, delivery mode, and the used room's/course's
  attributes); purely presentational strings (names, titles, `"HH:MM"`
  formatting) are omitted.
-/

namespace SW

/-- A time slot, as minutes since midnight (`TimeSlot` dataclass). -/
structure TimeSlot where
  startT : Nat
  endT : Nat
deriving DecidableEq, Repr

/-- The five weekday codes `['M','T','W','TH','F']`. -/
inductive Day where
  | M | T | W | TH | F
deriving DecidableEq, Repr

/-- `self.weekdays`. -/
def weekdays : List Day := [.M, .T, .W, .TH, .F]

/-- Delivery mode; call sites only ever pass the literals
`'Face-to-face'` and `'Online'`. -/
inductive Mode where
  | f2f | online
deriving DecidableEq, Repr

/-- `Room` dataclass (name omitted as presentational). -/
structure Room where
  room_id : Int
  room_type : String
  capacity : Nat
  program_id : Option Nat := none
deriving DecidableEq, Repr

/-- `Faculty` dataclass (name and unit/hour fields omitted: they are never
read by the engine). -/
structure Faculty where
  faculty_id : Nat
  employment_type : String
  specialization : String := ""
  program_id : Option Nat := none
deriving DecidableEq, Repr

/-- `Course` dataclass (title and semester omitted: the engine reads the
semester only in the out-of-scope loading filter). -/
structure Course where
  course_id : Nat
  course_code : String
  units : Nat
  course_type : String := "Major"
  year_level : Nat := 1
  program_id : Option Nat := none
deriving DecidableEq, Repr

/-- `Section` dataclass (name omitted). -/
structure Section where
  section_id : Nat
  program_id : Nat
  year_level : Nat
deriving DecidableEq, Repr

/-- `Program` dataclass (code/name omitted: used only for identity). -/
structure Program where
  program_id : Nat
deriving DecidableEq, Repr

/-! ### Configuration constants (default values of the env-read constants) -/

def TIME_SLOT_START_HOUR : Nat := 7
def TIME_SLOT_START_MINUTE : Nat := 30
def TIME_SLOT_END_HOUR : Nat := 18
def TIME_SLOT_DURATION_MINUTES : Nat := 90
def ONLINE_ROOM_FALLBACK_ID : Int := -1
def ONLINE_ROOM_FALLBACK_CAPACITY : Nat := 999
def LUNCH_BREAK_START_HOUR : Nat := 12
def LUNCH_BREAK_START_MINUTE : Nat := 0
def LUNCH_BREAK_END_HOUR : Nat := 12
def LUNCH_BREAK_END_MINUTE : Nat := 30
def SCORE_PROGRAM_MATCH : Nat := 80
def SCORE_LOAD_BASE : Nat := 50
def SCORE_LOAD_STEP : Nat := 5
def SCORE_SLOTS_BASE : Nat := 30
def SCORE_SLOTS_STEP : Nat := 2
def MAX_COURSES_PERMANENT : Nat := 10
def MAX_COURSES_NON_PERM : Nat := 5

/-! ### A structural stable sort

Python's `sorted`/`list.sort` is a stable sort.  For a total, transitive
boolean preorder `le` (where `le a b` means "`a` may be placed before
`b`"), any stable sort produces the same output, so insertion sort — which
is structurally recursive and therefore evaluates inside the kernel — is
used to model every `sorted(...)` call of the source. -/

def insertLe (le : α → α → Bool) (a : α) : List α → List α
  | [] => [a]
  | b :: l => if le a b then a :: b :: l else b :: insertLe le a l

def sortLe (le : α → α → Bool) : List α → List α
  | [] => []
  | a :: l => insertLe le a (sortLe le l)

/-! ### Generic association-list helpers (Python `dict` semantics) -/

/-- `d.get(k)` / `d[k]`-style lookup: first binding of the key. -/
def alookup [DecidableEq κ] : List (κ × α) → κ → Option α
  | [], _ => none
  | (k, v) :: rest, key => if k = key then some v else alookup rest key

/-- `d[k] = v`: update the binding in place, or append a new one. -/
def aset [DecidableEq κ] : List (κ × α) → κ → α → List (κ × α)
  | [], key, v => [(key, v)]
  | (k, w) :: rest, key, v =>
      if k = key then (k, v) :: rest else (k, w) :: aset rest key v

/-! ### String helpers mirroring Python's `.lower()/.upper()/.strip()/in` -/

/-- ASCII lower-casing of one character (all strings the engine compares
case-insensitively are ASCII literals). -/
def lowerChar (c : Char) : Char :=
  if 65 ≤ c.toNat && c.toNat ≤ 90 then Char.ofNat (c.toNat + 32) else c

/-- ASCII upper-casing of one character. -/
def upperChar (c : Char) : Char :=
  if 97 ≤ c.toNat && c.toNat ≤ 122 then Char.ofNat (c.toNat - 32) else c

/-- Python `s.lower()`. -/
def pyLower (s : String) : String := String.mk (s.data.map lowerChar)

/-- Python `s.upper()`. -/
def pyUpper (s : String) : String := String.mk (s.data.map upperChar)

def isSpaceChar (c : Char) : Bool :=
  c == ' ' || c == '\t' || c == '\n' || c == '\r'

/-- Python `s.strip()` (whitespace trim at both ends). -/
def pyStrip (s : String) : String :=
  String.mk (((s.data.dropWhile isSpaceChar).reverse.dropWhile isSpaceChar).reverse)

/-- Does `hay` start with `needle` (over character lists)? -/
def startsWithL : List Char → List Char → Bool
  | [], _ => true
  | _ :: _, [] => false
  | a :: as, b :: bs => a == b && startsWithL as bs

/-- Character-list substring test. -/
def containsL (needle : List Char) : List Char → Bool
  | [] => startsWithL needle []
  | b :: bs => startsWithL needle (b :: bs) || containsL needle bs

/-- Python `needle in hay` on strings (substring containment). -/
def pyIn (needle hay : String) : Bool := containsL needle.data hay.data

/-- Code-point comparison of characters. -/
def charLt (a b : Char) : Bool := a.toNat < b.toNat

/-- Lexicographic code-point comparison of character lists (a strict
prefix is smaller), structurally recursive so it evaluates in the
kernel. -/
def strLtL : List Char → List Char → Bool
  | [], [] => false
  | [], _ :: _ => true
  | _ :: _, [] => false
  | a :: as, b :: bs => charLt a b || (a == b && strLtL as bs)

/-- Python `a < b` on strings (code-point lexicographic order). -/
def pyStrLt (a b : String) : Bool := strLtL a.data b.data

/-! ### Time grid generator (`_generate_time_slots`)

The source walks `(current_hour, current_minute)` pairs, normalising the
minute component below 60; comparing `time` objects lexicographically on
`(hour, minute)` is the same as comparing total minutes, and the `while`
condition `current_hour < END_HOUR` (resp. the break test
`end_hour >= END_HOUR`) is equivalent to `cur < END_HOUR*60`
(resp. `endTotal ≥ END_HOUR*60`) because the minute component stays in
`[0, 60)`.  The loop advances by the slot duration each iteration, so
`fuel = endTotal + 1` steps always suffice for any positive duration (for a
non-positive duration the source would not terminate; the claims only
concern the default 90-minute configuration). -/

def slotOverlapsLunch (lunchStart lunchEnd s e : Nat) : Bool :=
  !(e ≤ lunchStart || lunchEnd ≤ s)

def generate_time_slots_aux (endTotal dur lunchStart lunchEnd : Nat) :
    Nat → Nat → List TimeSlot
  | 0, _ => []
  | fuel + 1, cur =>
      if cur < endTotal then
        let e := cur + dur
        if endTotal ≤ e then []
        else
          let rest := generate_time_slots_aux endTotal dur lunchStart lunchEnd fuel (cur + dur)
          if slotOverlapsLunch lunchStart lunchEnd cur e then rest
          else ⟨cur, e⟩ :: rest
      else []

/-- `_generate_time_slots` for a given configuration. -/
def generate_time_slots (startH startM endH dur lunchSH lunchSM lunchEH lunchEM : Nat) :
    List TimeSlot :=
  let endTotal := endH * 60
  generate_time_slots_aux endTotal dur (lunchSH * 60 + lunchSM) (lunchEH * 60 + lunchEM)
    (endTotal + 1) (startH * 60 + startM)

/-- The time grid produced under the default configuration. -/
def defaultTimeSlots : List TimeSlot :=
  generate_time_slots TIME_SLOT_START_HOUR TIME_SLOT_START_MINUTE TIME_SLOT_END_HOUR
    TIME_SLOT_DURATION_MINUTES LUNCH_BREAK_START_HOUR LUNCH_BREAK_START_MINUTE
    LUNCH_BREAK_END_HOUR LUNCH_BREAK_END_MINUTE

/-! ### Employment normalisation and course-load limits -/

/-- The three employment categories the source normalises free text into. -/
inductive EmpCat where
  | permanent | affiliate | parttime
deriving DecidableEq, Repr

/-- `emp = (employment_type or '').strip().lower()` followed by the
three-way classification used throughout the source. -/
def empCategory (f : Faculty) : EmpCat :=
  let emp := pyLower (pyStrip f.employment_type)
  if emp == "permanent" || emp == "full-time" || emp == "full time" then .permanent
  else if emp == "affiliate" || emp == "affilate" then .affiliate
  else .parttime

/-- `_get_faculty_course_limit`: 10 for permanent/full-time, 5 for the
affiliate/part-time lists and for the default branch alike. -/
def get_faculty_course_limit (f : Faculty) : Nat :=
  match empCategory f with
  | .permanent => MAX_COURSES_PERMANENT
  | _ => MAX_COURSES_NON_PERM

/-! ### Run state -/

/-- The per-resource day map; inner dictionaries always carry all five
weekday keys, so they are total functions. -/
abbrev DaySched := Day → List TimeSlot

/-- One placed session, carrying the fields the source records into
`schedules_list` and the weekly grid (names/titles/time formatting are
presentational and omitted; `session_type` is derived from `room_type`). -/
structure Session where
  course_id : Nat
  course_code : String
  course_type : String
  year_level : Nat
  units : Nat
  section_id : Nat
  section_program : Nat
  faculty_id : Nat
  room_id : Int
  room_type : String
  room_program : Option Nat
  day : Day
  slot : TimeSlot
  delivery : Mode
deriving DecidableEq, Repr

/-- A `KeyError` raised by a Python dict indexing access. -/
inductive SchedErr where
  | facultyKey | roomKey | sectionKey
deriving DecidableEq, Repr

/-- The immutable per-run snapshot (`self.rooms`, `self.faculty`, …,
`self.time_slots`); never mutated during `generate_schedule`. -/
structure Catalog where
  rooms : List Room
  faculty : List Faculty
  courses : List Course
  sections : List Section
  programs : List Program
  time_slots : List TimeSlot

/-- The mutable engine state (`self.faculty_schedules`, …), plus the
accumulated output session list. -/
structure RunState where
  faculty_schedules : List (Nat × DaySched)
  room_schedules : List (Int × DaySched)
  section_schedules : List (Nat × DaySched)
  faculty_course_count : List (Nat × Nat)
  program_room_usage : List (Nat × List (Int × Nat))
  assigned_pairs : List (Nat × Nat)
  faculty_spec_backlog : List (Nat × Nat)
  out : List Session

/-- Room types excluded from physical-room tracking and candidacy. -/
def isVirtualType (t : String) : Bool :=
  t == "online" || t == "field" || t == "tba"

/-- `_initialize_rl_environment` (run as part of `load_data`). -/
def initRlEnvironment (cat : Catalog) : RunState where
  faculty_schedules := cat.faculty.map (fun f => (f.faculty_id, fun _ => []))
  room_schedules := cat.rooms.map (fun r => (r.room_id, fun _ => []))
  section_schedules := cat.sections.map (fun s => (s.section_id, fun _ => []))
  faculty_course_count := cat.faculty.map (fun f => (f.faculty_id, 0))
  faculty_spec_backlog := cat.faculty.map (fun f => (f.faculty_id, 0))
  program_room_usage := cat.programs.map (fun p =>
    (p.program_id,
      (cat.rooms.filter (fun r =>
        !isVirtualType (pyLower r.room_type) &&
        (r.program_id == none || r.program_id == some p.program_id))).map
        (fun r => (r.room_id, 0))))
  assigned_pairs := []
  out := []

/-- `_reset_environment`: clears the ledgers, counters, usage map,
assigned pairs and backlog in place (over the existing keys). -/
def reset_environment (cat : Catalog) (st : RunState) : RunState where
  faculty_schedules := st.faculty_schedules.map (fun kv => (kv.1, fun _ => []))
  room_schedules := st.room_schedules.map (fun kv => (kv.1, fun _ => []))
  section_schedules := st.section_schedules.map (fun kv => (kv.1, fun _ => []))
  faculty_course_count :=
    st.faculty_schedules.foldl (fun m kv => aset m kv.1 0) st.faculty_course_count
  program_room_usage :=
    st.program_room_usage.map (fun pm => (pm.1, pm.2.map (fun rv => (rv.1, 0))))
  assigned_pairs := []
  faculty_spec_backlog :=
    cat.faculty.foldl (fun m f => aset m f.faculty_id 0) st.faculty_spec_backlog
  out := st.out

/-! ### Conflict ledger -/

/-- `_time_slots_overlap`: half-open interval overlap test. -/
def time_slots_overlap (s1 s2 : TimeSlot) : Bool :=
  !(decide (s1.endT ≤ s2.startT) || decide (s2.endT ≤ s1.startT))

/-- Is the room with this id (first catalog match, as `next(...)` finds
it) a tracked physical room? -/
def physRoomCheck (cat : Catalog) (rid : Int) : Bool :=
  match cat.rooms.find? (fun r => r.room_id == rid) with
  | some room => pyLower room.room_type != "online"
  | none => false

/-- The section-conflict tail of `_check_conflicts`. -/
def check_conflicts_sect (st : RunState) (sid : Nat) (day : Day)
    (slot : TimeSlot) : Except SchedErr Bool :=
  match alookup st.section_schedules sid with
  | none => .error .sectionKey
  | some ssched => .ok ((ssched day).any (fun t => time_slots_overlap slot t))

/-- `_check_conflicts`: faculty, then room (only when the room, looked up
by id in the catalog, exists and is not of type `online`), then section. -/
def check_conflicts (cat : Catalog) (st : RunState) (fid : Nat) (rid : Int)
    (sid : Nat) (day : Day) (slot : TimeSlot) : Except SchedErr Bool :=
  match alookup st.faculty_schedules fid with
  | none => .error .facultyKey
  | some fsched =>
      if (fsched day).any (fun t => time_slots_overlap slot t) then
        .ok true
      else if physRoomCheck cat rid then
        match alookup st.room_schedules rid with
        | none => .error .roomKey
        | some rsched =>
            if (rsched day).any (fun t => time_slots_overlap slot t) then
              .ok true
            else
              check_conflicts_sect st sid day slot
      else
        check_conflicts_sect st sid day slot

/-- Append a slot to one resource's day list. -/
def updDay (m : DaySched) (day : Day) (slot : TimeSlot) : DaySched :=
  fun d => if d = day then m d ++ [slot] else m d

/-- `_add_to_schedule`: unconditionally appends the slot to the three
resource logs, in source order (faculty, room, section); each indexing
access can raise. -/
def add_to_schedule (st : RunState) (fid : Nat) (rid : Int) (sid : Nat)
    (day : Day) (slot : TimeSlot) : Except SchedErr RunState :=
  match alookup st.faculty_schedules fid with
  | none => .error .facultyKey
  | some fsched =>
      let st := { st with
        faculty_schedules := aset st.faculty_schedules fid (updDay fsched day slot) }
      match alookup st.room_schedules rid with
      | none => .error .roomKey
      | some rsched =>
          let st := { st with
            room_schedules := aset st.room_schedules rid (updDay rsched day slot) }
          match alookup st.section_schedules sid with
          | none => .error .sectionKey
          | some ssched =>
              .ok { st with
                section_schedules := aset st.section_schedules sid (updDay ssched day slot) }

/-! ### Faculty selector -/

def countOf (st : RunState) (fid : Nat) : Nat :=
  (alookup st.faculty_course_count fid).getD 0

def backlogOf (st : RunState) (fid : Nat) : Nat :=
  (alookup st.faculty_spec_backlog fid).getD 0

/-- `_has_faculty_capacity`. -/
def has_faculty_capacity (st : RunState) (f : Faculty) : Bool :=
  countOf st f.faculty_id < get_faculty_course_limit f

/-- `is_specialized` (closure in `_find_best_faculty_rl`):
non-empty specialization containing the upper-cased course code. -/
def is_specialized (c : Course) (f : Faculty) : Bool :=
  f.specialization != "" && pyIn (pyUpper c.course_code) (pyUpper f.specialization)

/-- Total committed slots across all days for one faculty (the source
indexes `self.faculty_schedules[faculty_id]`, which is initialised for
every catalog faculty; an absent id counts zero here). -/
def slotsTotal (st : RunState) (fid : Nat) : Nat :=
  match alookup st.faculty_schedules fid with
  | some m => (weekdays.map (fun d => (m d).length)).sum
  | none => 0

/-- `score` (closure in `_find_best_faculty_rl`); Nat subtraction is the
`max(0, _)` of the source. -/
def scoreFaculty (st : RunState) (sec : Section) (f : Faculty) : Nat :=
  (if f.program_id == some sec.program_id then SCORE_PROGRAM_MATCH else 0)
    + (SCORE_LOAD_BASE - SCORE_LOAD_STEP * countOf st f.faculty_id)
    + (SCORE_SLOTS_BASE - SCORE_SLOTS_STEP * slotsTotal st f.faculty_id)

/-- Sort key of a bucket entry: `(score, faculty_id)`. -/
def bucketKey (st : RunState) (sec : Section) (f : Faculty) : Nat × Nat :=
  (scoreFaculty st sec f, f.faculty_id)

/-- `a` may precede `b` in a reverse-sorted (stable descending) bucket:
`key b ≤ key a` lexicographically. -/
def descKeyLe (ka kb : Nat × Nat) : Bool :=
  decide (kb.1 < ka.1) || (kb.1 == ka.1 && decide (kb.2 ≤ ka.2))

/-- `sort_bucket`: Python's stable `sorted(..., key=(score, id), reverse=True)`. -/
def sort_bucket (st : RunState) (sec : Section) (bucket : List Faculty) : List Faculty :=
  sortLe (fun a b => descKeyLe (bucketKey st sec a) (bucketKey st sec b)) bucket

/-- One of the six (employment × specialization) partitions of the
capacity-eligible faculty; the single-pass partition of the source is the
corresponding filter (order preserved). -/
def bucket (cat : Catalog) (st : RunState) (c : Course) (e : EmpCat) (spec : Bool) :
    List Faculty :=
  cat.faculty.filter (fun f =>
    has_faculty_capacity st f && empCategory f == e && is_specialized c f == spec)

/-- `bool(course.course_type and course.course_type.lower() == 'major')`
(the truthiness guard is redundant: `''` fails the comparison anyway). -/
def isMajorCourse (c : Course) : Bool :=
  pyLower c.course_type == "major"

/-- Per-candidate guard of the major branch: skip non-specialized
permanents, and skip non-specialized candidates with positive backlog. -/
def majorGuard (st : RunState) (c : Course) (f : Faculty) : Bool :=
  !(empCategory f == .permanent && !is_specialized c f) &&
  !(!is_specialized c f && decide (0 < backlogOf st f.faculty_id))

/-- Per-candidate guard of the minor branch: backlog skip only. -/
def minorGuard (st : RunState) (c : Course) (f : Faculty) : Bool :=
  !(!is_specialized c f && decide (0 < backlogOf st f.faculty_id))

/-- `_find_best_faculty_rl`. -/
def find_best_faculty_rl (cat : Catalog) (st : RunState) (c : Course) (sec : Section) :
    Option Faculty :=
  let permanents_spec := sort_bucket st sec (bucket cat st c .permanent true)
  let affiliates_spec := sort_bucket st sec (bucket cat st c .affiliate true)
  let affiliates_other := sort_bucket st sec (bucket cat st c .affiliate false)
  let parttime_spec := sort_bucket st sec (bucket cat st c .parttime true)
  let parttime_other := sort_bucket st sec (bucket cat st c .parttime false)
  if isMajorCourse c then
    (permanents_spec.find? (majorGuard st c)).orElse
      (fun _ => parttime_spec.find? (majorGuard st c))
  else
    ((((affiliates_spec.find? (minorGuard st c)).orElse
      (fun _ => affiliates_other.find? (minorGuard st c))).orElse
      (fun _ => parttime_spec.find? (minorGuard st c))).orElse
      (fun _ => parttime_other.find? (minorGuard st c)))

/-! ### Room selector -/

def usageOf (st : RunState) (pid : Nat) (rid : Int) : Nat :=
  match alookup st.program_room_usage pid with
  | some m => (alookup m rid).getD 0
  | none => 0

/-- Ascending lexicographic comparison of equal-length integer key lists
(Python tuple comparison). -/
def lexLeInts : List Int → List Int → Bool
  | [], _ => true
  | _ :: _, [] => false
  | a :: as, b :: bs => decide (a < b) || (a == b && lexLeInts as bs)

/-- Minor-course room sort key:
`(usage, laboratory-first, -capacity, room_id)`. -/
def roomKeyMinor (st : RunState) (pid : Nat) (r : Room) : List Int :=
  [usageOf st pid r.room_id,
   if pyLower r.room_type == "laboratory" then 0 else 1,
   -(r.capacity : Int), r.room_id]

/-- Major-course room sort key: `(usage, -capacity, room_id)`. -/
def roomKeyMajor (st : RunState) (pid : Nat) (r : Room) : List Int :=
  [usageOf st pid r.room_id, -(r.capacity : Int), r.room_id]

/-- `_get_available_rooms_for_program`: program-specific rooms first, then
general rooms; virtual rooms excluded; majors restricted to laboratories;
each partition sorted by the usage-spreading key. -/
def get_available_rooms_for_program (cat : Catalog) (st : RunState) (pid : Nat)
    (ctype : String) : List Room :=
  let keep := fun (r : Room) =>
    !isVirtualType (pyLower r.room_type) &&
    !(pyLower ctype == "major" && pyLower r.room_type != "laboratory")
  let program_rooms := cat.rooms.filter (fun r => keep r && r.program_id == some pid)
  let general_rooms := cat.rooms.filter (fun r => keep r && r.program_id == none)
  if pyLower ctype == "minor" then
    sortLe (fun a b => lexLeInts (roomKeyMinor st pid a) (roomKeyMinor st pid b)) program_rooms
      ++ sortLe (fun a b => lexLeInts (roomKeyMinor st pid a) (roomKeyMinor st pid b)) general_rooms
  else
    sortLe (fun a b => lexLeInts (roomKeyMajor st pid a) (roomKeyMajor st pid b)) program_rooms
      ++ sortLe (fun a b => lexLeInts (roomKeyMajor st pid a) (roomKeyMajor st pid b)) general_rooms

/-! ### Session assigner -/

/-- `_find_available_time_slot`: first conflict-free slot of one day. -/
def find_slot_in_day (cat : Catalog) (st : RunState) (fid : Nat) (rid : Int)
    (sid : Nat) (day : Day) : List TimeSlot → Except SchedErr (Option TimeSlot)
  | [] => .ok none
  | s :: rest =>
      match check_conflicts cat st fid rid sid day s with
      | .error e => .error e
      | .ok true => find_slot_in_day cat st fid rid sid day rest
      | .ok false => .ok (some s)

/-- `_find_available_time_slot`: scan days in the given order, skipping
forbidden ones. -/
def find_avail_days (cat : Catalog) (st : RunState) (fid : Nat) (rid : Int)
    (sid : Nat) (forbidden : List Day) :
    List Day → Except SchedErr (Option (Day × TimeSlot))
  | [] => .ok none
  | d :: rest =>
      if forbidden.contains d then
        find_avail_days cat st fid rid sid forbidden rest
      else
        match find_slot_in_day cat st fid rid sid d cat.time_slots with
        | .error e => .error e
        | .ok (some slot) => .ok (some (d, slot))
        | .ok none => find_avail_days cat st fid rid sid forbidden rest

/-- `_find_available_time_slot`: days rotated to start from `start_index`. -/
def find_available_time_slot (cat : Catalog) (st : RunState) (fid : Nat) (rid : Int)
    (sid : Nat) (forbidden : List Day) (start_index : Nat) :
    Except SchedErr (Option (Day × TimeSlot)) :=
  find_avail_days cat st fid rid sid forbidden
    (weekdays.drop start_index ++ weekdays.take start_index)

/-- Day-rotation offset: 0 for Face-to-face, 3 for Online. -/
def mode_offset : Mode → Nat
  | .f2f => 0
  | .online => 3

/-- The session record written by `_assign_session_rl` (union of the flat
and weekly fields the claims mention). -/
def mkSession (c : Course) (sec : Section) (f : Faculty) (r : Room) (mode : Mode)
    (day : Day) (slot : TimeSlot) : Session where
  course_id := c.course_id
  course_code := c.course_code
  course_type := c.course_type
  year_level := c.year_level
  units := c.units
  section_id := sec.section_id
  section_program := sec.program_id
  faculty_id := f.faculty_id
  room_id := r.room_id
  room_type := r.room_type
  room_program := r.program_id
  day := day
  slot := slot
  delivery := mode

/-- `_assign_session_rl`. -/
def assign_session_rl (cat : Catalog) (st : RunState) (c : Course) (sec : Section)
    (f : Faculty) (r : Room) (mode : Mode) (forbidden : List Day) :
    Except SchedErr (RunState × Option Day) :=
  let start_index := (sec.section_id + c.course_id + mode_offset mode) % weekdays.length
  match find_available_time_slot cat st f.faculty_id r.room_id sec.section_id
      forbidden start_index with
  | .error e => .error e
  | .ok none => .ok (st, none)
  | .ok (some (day, slot)) =>
      match add_to_schedule st f.faculty_id r.room_id sec.section_id day slot with
      | .error e => .error e
      | .ok st1 =>
          .ok ({ st1 with out := st1.out ++ [mkSession c sec f r mode day slot] }, some day)

/-- The guarded program-room usage increment after a Face-to-face success
(`try: ... except: pass` with an explicit membership guard). -/
def bump_room_usage (st : RunState) (pid : Nat) (rid : Int) : RunState :=
  match alookup st.program_room_usage pid with
  | none => st
  | some m =>
      match alookup m rid with
      | none => st
      | some n =>
          { st with program_room_usage := aset st.program_room_usage pid (aset m rid (n + 1)) }

/-- The Face-to-face candidate-room loop of `_assign_course_sessions_rl`. -/
def try_f2f_rooms (cat : Catalog) (c : Course) (sec : Section) (f : Faculty) :
    List Room → RunState → Except SchedErr (RunState × Option Day)
  | [], st => .ok (st, none)
  | r :: rest, st =>
      match assign_session_rl cat st c sec f r .f2f [] with
      | .error e => .error e
      | .ok (st1, some day) => .ok (bump_room_usage st1 sec.program_id r.room_id, some day)
      | .ok (st1, none) => try_f2f_rooms cat c sec f rest st1

/-- The synthetic fallback online room (`Room(room_id=-1, ...)`). -/
def fallbackOnlineRoom (sec : Section) : Room where
  room_id := ONLINE_ROOM_FALLBACK_ID
  room_type := "Online"
  capacity := ONLINE_ROOM_FALLBACK_CAPACITY
  program_id := some sec.program_id

/-- The body of `_assign_course_sessions_rl` after the duplicate-pair
check: Face-to-face attempt over the candidate list, then the Online
attempt with the Face-to-face day forbidden.  Returns the state, the
Face-to-face day (if placed) and whether the Online session placed. -/
def assign_course_sessions_core (cat : Catalog) (st : RunState) (c : Course)
    (sec : Section) (f : Faculty) : Except SchedErr (RunState × Option Day × Bool) :=
  let online_room :=
    (cat.rooms.find? (fun r => pyLower r.room_type == "online")).getD (fallbackOnlineRoom sec)
  let candidates := get_available_rooms_for_program cat st sec.program_id c.course_type
  match try_f2f_rooms cat c sec f candidates st with
  | .error e => .error e
  | .ok (st1, f2f_day) =>
      let forbidden := match f2f_day with
        | some d => [d]
        | none => []
      match assign_session_rl cat st1 c sec f online_room .online forbidden with
      | .error e => .error e
      | .ok (st2, online_day) => .ok (st2, f2f_day, online_day.isSome)

/-- The backlog decrement performed on a fully successful assignment
(no non-empty-specialization guard here, unlike `is_specialized`). -/
def decBacklogIfSpec (st : RunState) (c : Course) (f : Faculty) : RunState :=
  if pyIn (pyUpper c.course_code) (pyUpper f.specialization) then
    if decide (0 < backlogOf st f.faculty_id) then
      { st with
          faculty_spec_backlog :=
            aset st.faculty_spec_backlog f.faculty_id (backlogOf st f.faculty_id - 1) }
    else st
  else st

/-- `_assign_course_sessions_rl`. -/
def assign_course_sessions_rl (cat : Catalog) (st : RunState) (c : Course)
    (sec : Section) (f : Faculty) : Except SchedErr (RunState × Bool) :=
  if st.assigned_pairs.contains (sec.section_id, c.course_id) then
    .ok (st, false)
  else
    match assign_course_sessions_core cat st c sec f with
    | .error e => .error e
    | .ok (st1, f2f_day, online_ok) =>
        if f2f_day.isSome && online_ok then
          let st2 := { st1 with
            faculty_course_count :=
              aset st1.faculty_course_count f.faculty_id (countOf st1 f.faculty_id + 1),
            assigned_pairs := st1.assigned_pairs ++ [(sec.section_id, c.course_id)] }
          .ok (decBacklogIfSpec st2 c f, true)
        else
          .ok (st1, false)

/-! ### Allocation orchestrator (`generate_schedule`) -/

/-- Ascending comparison for the assignment-list sort key
`(major-first, year_level, section.program_id, course_code)`. -/
def assignLe (x y : Section × Course) : Bool :=
  let a1 : Nat := if isMajorCourse x.2 then 0 else 1
  let b1 : Nat := if isMajorCourse y.2 then 0 else 1
  decide (a1 < b1) || (a1 == b1 &&
    (decide (x.2.year_level < y.2.year_level) || (x.2.year_level == y.2.year_level &&
      (decide (x.1.program_id < y.1.program_id) || (x.1.program_id == y.1.program_id &&
        (pyStrLt x.2.course_code y.2.course_code || x.2.course_code == y.2.course_code))))))

/-- The cross-join of sections × courses filtered by program and year,
sorted by the deterministic key (Python's sort is stable; `mergeSort` is
stable too, over the section-major iteration order). -/
def buildAssignments (cat : Catalog) : List (Section × Course) :=
  sortLe assignLe
    (cat.sections.flatMap (fun sec =>
      (cat.courses.filter (fun c =>
        c.program_id == some sec.program_id && c.year_level == sec.year_level)).map
        (fun c => (sec, c))))

/-- Backlog contribution of one faculty: matching, eligibility-respecting,
not-yet-assigned pairs of the assignment list. -/
def backlogCount (st : RunState) (assignments : List (Section × Course))
    (f : Faculty) : Nat :=
  let spec := pyUpper f.specialization
  if spec == "" then 0
  else
    (assignments.filter (fun p =>
      !(st.assigned_pairs.contains (p.1.section_id, p.2.course_id)) &&
      (let is_major := isMajorCourse p.2
       !(empCategory f == .permanent && !is_major) &&
       !(empCategory f == .affiliate && is_major) &&
       !(empCategory f == .parttime && is_major && !(pyIn (pyUpper p.2.course_code) spec))) &&
      pyIn (pyUpper p.2.course_code) spec &&
      p.2.program_id == some p.1.program_id &&
      p.2.year_level == p.1.year_level)).length

/-- The backlog recomputation at the start of `generate_schedule`:
a fresh zero map over the catalog faculty, then per-faculty counts
(accumulating over duplicate ids like repeated dict increments would). -/
def computeBacklogs (cat : Catalog) (assignments : List (Section × Course))
    (st : RunState) : RunState :=
  let base := cat.faculty.map (fun f => (f.faculty_id, 0))
  { st with
      faculty_spec_backlog :=
        cat.faculty.foldl (fun m f =>
          aset m f.faculty_id ((alookup m f.faculty_id).getD 0 + backlogCount st assignments f))
          base }

/-- PRIMARY_PASS: one sweep over the sorted assignment list. -/
def primary_pass (cat : Catalog) :
    List (Section × Course) → RunState → Except SchedErr RunState
  | [], st => .ok st
  | (sec, c) :: rest, st =>
      if st.assigned_pairs.contains (sec.section_id, c.course_id) then
        primary_pass cat rest st
      else
        match find_best_faculty_rl cat st c sec with
        | none => primary_pass cat rest st
        | some f =>
            match assign_course_sessions_rl cat st c sec f with
            | .error e => .error e
            | .ok (st1, _) => primary_pass cat rest st1

/-- The employment/course-type eligibility chain used by the backfill pass
(part-time majors require the full `is_specialized` test). -/
def backfillElig (f : Faculty) (c : Course) : Bool :=
  let is_major := isMajorCourse c
  !(empCategory f == .permanent && !is_major) &&
  !(empCategory f == .affiliate && is_major) &&
  !(empCategory f == .parttime && is_major && !is_specialized c f)

/-- The specialization-preferred pool for one unassigned faculty. -/
def backfill_matching (cat : Catalog) (st : RunState) (f : Faculty) :
    List (Section × Course) :=
  cat.sections.flatMap (fun sec =>
    (cat.courses.filter (fun c =>
      c.program_id == some sec.program_id && c.year_level == sec.year_level &&
      !(st.assigned_pairs.contains (sec.section_id, c.course_id)) &&
      backfillElig f c &&
      is_specialized c f)).map (fun c => (sec, c)))

/-- The pool loop of BACKFILL_UNASSIGNED_FACULTY: skip assigned pairs and
ineligible courses, break on exhausted capacity, stop after the first
successful assignment. -/
def backfill_pool (cat : Catalog) (f : Faculty) :
    List (Section × Course) → RunState → Except SchedErr RunState
  | [], st => .ok st
  | (sec, c) :: rest, st =>
      if st.assigned_pairs.contains (sec.section_id, c.course_id) then
        backfill_pool cat f rest st
      else if !(backfillElig f c) then
        backfill_pool cat f rest st
      else if !(has_faculty_capacity st f) then
        .ok st
      else
        match assign_course_sessions_rl cat st c sec f with
        | .error e => .error e
        | .ok (st1, ok) => if ok then .ok st1 else backfill_pool cat f rest st1

/-- BACKFILL_UNASSIGNED_FACULTY over the fixed snapshot of zero-count
faculty. -/
def backfill_unassigned (cat : Catalog) (assignments : List (Section × Course)) :
    List Faculty → RunState → Except SchedErr RunState
  | [], st => .ok st
  | f :: rest, st =>
      let matching := backfill_matching cat st f
      let pool := if matching.isEmpty then assignments else matching
      match backfill_pool cat f pool st with
      | .error e => .error e
      | .ok st1 => backfill_unassigned cat assignments rest st1

/-- Ascending lexicographic comparison of equal-length Nat key lists. -/
def lexLeNats : List Nat → List Nat → Bool
  | [], _ => true
  | _ :: _, [] => false
  | a :: as, b :: bs => decide (a < b) || (a == b && lexLeNats as bs)

/-- The deterministic (section, course) scan order of
BACKFILL_SPECIALIZED_CAPACITY. -/
def postPairs (cat : Catalog) : List (Section × Course) :=
  (sortLe (fun a b =>
      lexLeNats [a.program_id, a.year_level, a.section_id]
        [b.program_id, b.year_level, b.section_id]) cat.sections).flatMap (fun sec =>
    (sortLe (fun a b =>
        (decide (a.year_level < b.year_level) || (a.year_level == b.year_level &&
          (decide (a.program_id.getD 0 < b.program_id.getD 0) ||
            (a.program_id.getD 0 == b.program_id.getD 0 &&
              (pyStrLt a.course_code b.course_code || a.course_code == b.course_code))))))
      cat.courses).map (fun c => (sec, c)))

/-- One inner scan of the specialized-capacity pass: first matching,
eligibility-respecting pair that fully assigns; reports whether one was
found. -/
def post_scan (cat : Catalog) (f : Faculty) :
    List (Section × Course) → RunState → Except SchedErr (RunState × Bool)
  | [], st => .ok (st, false)
  | (sec, c) :: rest, st =>
      if c.program_id == some sec.program_id && c.year_level == sec.year_level &&
          !(st.assigned_pairs.contains (sec.section_id, c.course_id)) &&
          pyIn (pyUpper c.course_code) (pyUpper f.specialization) &&
          !(empCategory f == .affiliate && isMajorCourse c) then
        match assign_course_sessions_rl cat st c sec f with
        | .error e => .error e
        | .ok (st1, ok) => if ok then .ok (st1, true) else post_scan cat f rest st1
      else
        post_scan cat f rest st

/-- The `while self._has_faculty_capacity(faculty)` loop, fuelled: every
continuing iteration performs a successful assignment, which increments
this faculty's course count, so `MAX_COURSES_PERMANENT + 1` iterations
always suffice. -/
def post_fill_faculty (cat : Catalog) (f : Faculty) :
    Nat → RunState → Except SchedErr RunState
  | 0, st => .ok st
  | fuel + 1, st =>
      if has_faculty_capacity st f then
        match post_scan cat f (postPairs cat) st with
        | .error e => .error e
        | .ok (st1, found) =>
            if found then post_fill_faculty cat f fuel st1 else .ok st1
      else
        .ok st

/-- The affiliate/part-time specialized faculty, in ascending id order. -/
def specializedAffiliates (cat : Catalog) : List Faculty :=
  sortLe (fun a b => decide (a.faculty_id ≤ b.faculty_id))
    (cat.faculty.filter (fun f =>
      (let e := pyLower (pyStrip f.employment_type)
       e == "affiliate" || e == "affilate" || e == "part-time" || e == "part time") &&
      f.specialization != ""))

/-- BACKFILL_SPECIALIZED_CAPACITY. -/
def post_pass (cat : Catalog) :
    List Faculty → RunState → Except SchedErr RunState
  | [], st => .ok st
  | f :: rest, st =>
      match post_fill_faculty cat f (MAX_COURSES_PERMANENT + 1) st with
      | .error e => .error e
      | .ok st1 => post_pass cat rest st1

/-- `generate_schedule`: reset, build and sort the assignment list,
recompute the specialization backlog, primary pass, unassigned-faculty
backfill, specialized-capacity backfill. -/
def generate_schedule (cat : Catalog) (st0 : RunState) : Except SchedErr RunState :=
  let st := { reset_environment cat st0 with out := [] }
  let assignments := buildAssignments cat
  let st := computeBacklogs cat assignments st
  match primary_pass cat assignments st with
  | .error e => .error e
  | .ok st =>
      let unassigned := cat.faculty.filter (fun f => countOf st f.faculty_id == 0)
      match backfill_unassigned cat assignments unassigned st with
      | .error e => .error e
      | .ok st => post_pass cat (specializedAffiliates cat) st

/-- One full run: `load_data` initialisation (with the default time grid)
followed by `generate_schedule`. -/
def runScheduler (cat : Catalog) : Except SchedErr RunState :=
  generate_schedule cat (initRlEnvironment cat)

/-- A run over raw catalog data, installing the default time grid the way
`load_data` does. -/
def mkCatalog (rooms : List Room) (faculty : List Faculty) (courses : List Course)
    (sections : List Section) (programs : List Program) : Catalog where
  rooms := rooms
  faculty := faculty
  courses := courses
  sections := sections
  programs := programs
  time_slots := defaultTimeSlots

/-! ### Derived views of the run state -/

/-- The committed slots of one resource on one day (empty for an absent
key — reachable states have every catalog resource initialised). -/
def slotsAt [DecidableEq κ] (ms : List (κ × DaySched)) (k : κ) (d : Day) :
    List TimeSlot :=
  match alookup ms k with
  | some m => m d
  | none => []

def slotsOfF (st : RunState) (fid : Nat) (d : Day) : List TimeSlot :=
  slotsAt st.faculty_schedules fid d

def slotsOfR (st : RunState) (rid : Int) (d : Day) : List TimeSlot :=
  slotsAt st.room_schedules rid d

def slotsOfS (st : RunState) (sid : Nat) (d : Day) : List TimeSlot :=
  slotsAt st.section_schedules sid d

/-- Every ledger day-list of `st` persists as a prefix in `st'`, and the
output session list only grows: nothing is ever rolled back or removed. -/
def LedgerExtends (st st' : RunState) : Prop :=
  (∀ fid d, ∃ t, slotsOfF st' fid d = slotsOfF st fid d ++ t) ∧
  (∀ rid d, ∃ t, slotsOfR st' rid d = slotsOfR st rid d ++ t) ∧
  (∀ sid d, ∃ t, slotsOfS st' sid d = slotsOfS st sid d ++ t) ∧
  (∃ t, st'.out = st.out ++ t)

/-- A step that commits sessions but does not touch the assignment
bookkeeping: course counts, assigned pairs and the specialization backlog
are unchanged, and the ledgers only grow. -/
def StepExtends (st st' : RunState) : Prop :=
  st'.faculty_course_count = st.faculty_course_count ∧
  st'.assigned_pairs = st.assigned_pairs ∧
  st'.faculty_spec_backlog = st.faculty_spec_backlog ∧
  LedgerExtends st st'

/-- Extract the payload of a successful run. -/
def getOk : Except SchedErr α → α → α
  | .ok v, _ => v
  | .error _, d => d

/-- A default (empty) run state. -/
def emptyRun : RunState :=
  ⟨[], [], [], [], [], [], [], []⟩

/-- Extract an error, if any. -/
def errOf : Except SchedErr α → Option SchedErr
  | .ok _ => none
  | .error e => some e

/-! ### Invariant predicates over runs -/

/-- Two sessions do not double-book a shared resource: placed on the same
day and sharing a faculty, a section, or a room that is a tracked physical
room (`physRoomCheck`: the room id resolves in the catalog to a room whose
type is not `online`), their slots do not overlap. -/
def NoClash (cat : Catalog) (s1 s2 : Session) : Prop :=
  s1.day = s2.day →
    (s1.faculty_id = s2.faculty_id → time_slots_overlap s1.slot s2.slot = false) ∧
    (s1.section_id = s2.section_id → time_slots_overlap s1.slot s2.slot = false) ∧
    (s1.room_id = s2.room_id → physRoomCheck cat s1.room_id = true →
      time_slots_overlap s1.slot s2.slot = false)

/-- Shape constraints of a Face-to-face session's room: laboratory type
for major courses, and program affinity (general or the section's own
program). -/
def SessShape (s : Session) : Prop :=
  s.delivery = Mode.f2f →
    (pyLower s.course_type = "major" → pyLower s.room_type = "laboratory") ∧
    (s.room_program = none ∨ s.room_program = some s.section_program)

/-- The room-candidate guarantee `_get_available_rooms_for_program` gives
for one candidate. -/
def RoomShapeOk (c : Course) (sec : Section) (r : Room) : Prop :=
  (pyLower c.course_type = "major" → pyLower r.room_type = "laboratory") ∧
  (r.program_id = none ∨ r.program_id = some sec.program_id)

/-- An assigned pair has a Face-to-face and an Online session in the
output, on two different days. -/
def PairSess (out : List Session) (p : Nat × Nat) : Prop :=
  ∃ s1, s1 ∈ out ∧ s1.section_id = p.1 ∧ s1.course_id = p.2 ∧
    s1.delivery = Mode.f2f ∧
    ∃ s2, s2 ∈ out ∧ s2.section_id = p.1 ∧ s2.course_id = p.2 ∧
      s2.delivery = Mode.online ∧ s1.day ≠ s2.day

/-- Catalog well-formedness: faculty ids are unique (dict-keyed state
makes same-id entries share counters). -/
def NodupFacultyIds (cat : Catalog) : Prop :=
  (cat.faculty.map (fun f => f.faculty_id)).Nodup

/-- The run invariant: output sessions never double-book shared
resources, every output slot is registered in the corresponding ledgers,
Face-to-face sessions respect the room constraints, assigned pairs have
their two sessions on distinct days, and (for well-formed catalogs)
course counts stay within the employment-type limits. -/
structure Inv (cat : Catalog) (st : RunState) : Prop where
  pw : st.out.Pairwise (NoClash cat)
  memF : ∀ s ∈ st.out, s.slot ∈ slotsOfF st s.faculty_id s.day
  memR : ∀ s ∈ st.out, s.slot ∈ slotsOfR st s.room_id s.day
  memS : ∀ s ∈ st.out, s.slot ∈ slotsOfS st s.section_id s.day
  shape : ∀ s ∈ st.out, SessShape s
  pairsOk : ∀ p ∈ st.assigned_pairs, PairSess st.out p
  counts : NodupFacultyIds cat → ∀ f, f ∈ cat.faculty →
    countOf st f.faculty_id ≤ get_faculty_course_limit f

/-! ### Concrete inputs for claims C1, C2 (witness), C3, C4, C9, C10 -/

/-- One part-time faculty, two minor courses, a lecture and an online
room: both pairs assign, giving two Face-to-face sessions of the same
faculty on the same day. -/
def c1Cat : Catalog := mkCatalog
  [⟨10, "Lecture", 40, none⟩, ⟨11, "Online", 999, none⟩]
  [⟨7, "Part-time", "", none⟩]
  [⟨0, "MIN0", 3, "Minor", 1, some 1⟩, ⟨5, "MIN1", 3, "Minor", 1, some 1⟩]
  [⟨0, 1, 1⟩]
  [⟨1⟩]

def c1State : RunState := getOk (runScheduler c1Cat) emptyRun

def c3Cat : Catalog := mkCatalog
  [⟨10, "Lecture", 40, none⟩, ⟨11, "Online", 999, none⟩]
  [⟨9, "Part-time", "", none⟩]
  [⟨0, "MIN0", 3, "Minor", 1, some 1⟩]
  [⟨0, 1, 1⟩]
  [⟨1⟩]

def c3State : RunState := getOk (runScheduler c3Cat) emptyRun

/-- A laboratory and an online room with a specialized part-time faculty
and one major course: the pair fully assigns, and its Online session uses
the online room. -/
def c4Cat : Catalog := mkCatalog
  [⟨12, "Laboratory", 30, none⟩, ⟨13, "Online", 999, none⟩]
  [⟨8, "Part-time", "MAJ1", some 1⟩]
  [⟨3, "MAJ1", 3, "Major", 1, some 1⟩]
  [⟨1, 1, 1⟩]
  [⟨1⟩]

def c4State : RunState := getOk (runScheduler c4Cat) emptyRun

/-- No online-type room at all: the Online session is attempted with the
synthetic fallback room (id −1), which is absent from the room ledger. -/
def c9Cat : Catalog := mkCatalog
  [⟨14, "Lecture", 40, none⟩]
  [⟨6, "Part-time", "", none⟩]
  [⟨2, "MIN2", 3, "Minor", 1, some 1⟩]
  [⟨3, 1, 1⟩]
  [⟨1⟩]

/-- The catalog's only online-type room belongs to program 1, while the
section being scheduled belongs to program 2. -/
def c10Cat : Catalog := mkCatalog
  [⟨15, "Lecture", 40, none⟩, ⟨16, "Online", 999, some 1⟩]
  [⟨5, "Part-time", "", some 2⟩]
  [⟨4, "MIN3", 3, "Minor", 1, some 2⟩]
  [⟨4, 2, 1⟩]
  [⟨1⟩, ⟨2⟩]

def c10State : RunState := getOk (runScheduler c10Cat) emptyRun

/-! ### Concrete inputs for claim C2's counterexample

A part-time faculty `A` (id 1) specialized in both the shared major code
`MAJX` and the minor code `MINZ`, with no laboratory rooms: every major
pair fails its Face-to-face session (no candidate rooms) but commits a
phantom Online session into `A`'s ledger.  The twenty major course ids are
multiples of 5 so each phantom's day rotation starts on Tuesday, filling
`A`'s Tuesday–Friday completely.  The minor pair (section 4, course 101)
is then attempted with `A`: its Face-to-face lands on Monday, the Online
session finds every other day occupied and fails, leaving a phantom
Face-to-face session.  The unassigned-faculty backfill later retries the
same pair with the fresh faculty `B` (id 2) and fully succeeds — so the
assigned pair ends with TWO Face-to-face sessions in the output. -/

def c2Majors : List Course :=
  (List.range 20).map (fun k => ⟨5 * (k + 1), "MAJX", 3, "Major", 1, some 1⟩)

def c2Cat : Catalog := mkCatalog
  [⟨50, "Lecture", 40, none⟩, ⟨51, "Online", 999, none⟩]
  [⟨1, "Part-time", "MAJX MINZ", some 1⟩, ⟨2, "Part-time", "", none⟩]
  (c2Majors ++ [⟨101, "MINZ", 3, "Minor", 2, some 1⟩])
  [⟨3, 1, 1⟩, ⟨4, 1, 2⟩]
  [⟨1⟩]

def c2State : RunState := getOk (runScheduler c2Cat) emptyRun

/-! ### Concrete inputs for claim C8 -/

/-- A specialized part-time faculty, a major course, and a catalog with an
online room but no laboratory: the Face-to-face session cannot place (no
candidate rooms) while the Online session places. -/
def c8F : Faculty := ⟨4, "Part-time", "MAJ2", some 1⟩

def c8Course : Course := ⟨30, "MAJ2", 3, "Major", 1, some 1⟩

def c8Sec : Section := ⟨2, 1, 1⟩

def c8Cat : Catalog := mkCatalog [⟨21, "Online", 999, none⟩] [c8F] [c8Course] [c8Sec] [⟨1⟩]

def c8St : RunState := initRlEnvironment c8Cat

def c8Res : RunState × Option Day × Bool :=
  getOk (assign_course_sessions_core c8Cat c8St c8Course c8Sec c8F) (emptyRun, none, false)

/-! ### Concrete inputs for claims C6 and C7 -/

/-- Two part-time faculty with identical scoring attributes and distinct
ids, for the tie-breaking claim. -/
def c6F1 : Faculty := ⟨1, "Part-time", "", some 1⟩

def c6F2 : Faculty := ⟨2, "Part-time", "", some 1⟩

def c6Sec : Section := ⟨0, 1, 1⟩

def c6Cat : Catalog :=
  mkCatalog [] [c6F1, c6F2] [] [c6Sec] [⟨1⟩]

def c6St : RunState := initRlEnvironment c6Cat

/-- One specialized part-time faculty and one major course. -/
def c7F : Faculty := ⟨3, "Part-time", "CS101", some 1⟩

def c7Course : Course := ⟨20, "CS101", 3, "Major", 1, some 1⟩

def c7Sec : Section := ⟨0, 1, 1⟩

def c7Cat : Catalog := mkCatalog [] [c7F] [c7Course] [c7Sec] [⟨1⟩]

def c7St : RunState := initRlEnvironment c7Cat

/-! ## Theorems -/

/-! ### Association-list lemmas -/

theorem alookup_aset_self [DecidableEq κ] (m : List (κ × α)) (k : κ) (v : α) :
    alookup (aset m k v) k = some v := by
  induction m with
  | nil => simp [aset, alookup]
  | cons h t ih =>
      obtain ⟨k', w⟩ := h
      by_cases hk : k' = k <;> simp [aset, alookup, hk, ih]

theorem alookup_aset_ne [DecidableEq κ] (m : List (κ × α)) (k k' : κ) (v : α)
    (h : k ≠ k') : alookup (aset m k v) k' = alookup m k' := by
  induction m with
  | nil => simp [aset, alookup, h]
  | cons hd t ih =>
      obtain ⟨k'', w⟩ := hd
      by_cases hk : k'' = k
      · simp [aset, alookup, hk, ih]
        simp_all
      · simp [aset, alookup, hk, ih]

/-! ### Claim C5 — default time grid

The source's grid generator, under the default configuration, produces the
five chronological slots 07:30–09:00, 09:00–10:30, 10:30–12:00,
13:30–15:00, 15:00–16:30 (the 12:00–13:30 candidate overlaps lunch and is
skipped; 16:30–18:00 is excluded because it ends at 18:00).  The claim's
slot enumeration is exactly this list, but its stated count of "exactly 6
slots" is wrong: the enumeration itself has five entries. -/

/-- Claim C5, counterexample: under the default configuration the Time
Grid Generator does NOT produce 6 slots — it produces 5, so the claim as
stated is false. -/
theorem c5_count_counterexample : SW.defaultTimeSlots.length ≠ 6 := by decide

/-- Claim C5 (amended): with the default configuration the Time Grid
Generator produces exactly 5 slots, in chronological order:
07:30–09:00, 09:00–10:30, 10:30–12:00, then (skipping the
lunch-overlapping 12:00–13:30 candidate) 13:30–15:00 and 15:00–16:30,
with 16:30–18:00 excluded because it ends at or after 18:00. -/
theorem c5_default_time_grid :
    SW.defaultTimeSlots =
      [⟨450, 540⟩, ⟨540, 630⟩, ⟨630, 720⟩, ⟨810, 900⟩, ⟨900, 990⟩] := by decide

/-! ### Sorting lemmas for the structural stable sort -/

theorem mem_insertLe {le : α → α → Bool} {a x : α} {l : List α} :
    x ∈ insertLe le a l ↔ x = a ∨ x ∈ l := by
  induction l with
  | nil => simp [insertLe]
  | cons b t ih =>
      by_cases hab : le a b = true
      · rw [insertLe, if_pos hab]
        simp
      · rw [insertLe, if_neg hab]
        simp only [List.mem_cons, ih]
        tauto

theorem mem_sortLe {le : α → α → Bool} {x : α} {l : List α} :
    x ∈ sortLe le l ↔ x ∈ l := by
  induction l with
  | nil => simp [sortLe]
  | cons a t ih => simp [sortLe, mem_insertLe, ih]

theorem pairwise_insertLe {le : α → α → Bool}
    (total : ∀ a b, (le a b || le b a) = true)
    (trans : ∀ a b c, le a b = true → le b c = true → le a c = true)
    {a : α} {l : List α} (h : l.Pairwise (fun x y => le x y = true)) :
    (insertLe le a l).Pairwise (fun x y => le x y = true) := by
  induction l with
  | nil => simp [insertLe]
  | cons b t ih =>
      rcases List.pairwise_cons.mp h with ⟨hb, ht⟩
      by_cases hab : le a b = true
      · rw [insertLe, if_pos hab]
        refine List.pairwise_cons.mpr ⟨?_, h⟩
        intro x hx
        rcases List.mem_cons.mp hx with hx | hx
        · exact hx ▸ hab
        · exact trans a b x hab (hb x hx)
      · rw [insertLe, if_neg hab]
        refine List.pairwise_cons.mpr ⟨?_, ih ht⟩
        intro x hx
        rcases mem_insertLe.mp hx with hx | hx
        · rw [hx]
          have htot := total a b
          rw [Bool.or_eq_true] at htot
          rcases htot with h' | h'
          · exact absurd h' hab
          · exact h'
        · exact hb x hx

theorem pairwise_sortLe {le : α → α → Bool}
    (total : ∀ a b, (le a b || le b a) = true)
    (trans : ∀ a b c, le a b = true → le b c = true → le a c = true)
    (l : List α) : (sortLe le l).Pairwise (fun x y => le x y = true) := by
  induction l with
  | nil => simp [sortLe]
  | cons a t ih => exact pairwise_insertLe total trans ih

/-! ### Claim C6 — bucket ordering of the faculty selector -/

theorem descKeyLe_trans (a b c : Nat × Nat) (h1 : descKeyLe a b = true)
    (h2 : descKeyLe b c = true) : descKeyLe a c = true := by
  simp only [descKeyLe, Bool.or_eq_true, Bool.and_eq_true, decide_eq_true_eq,
    beq_iff_eq] at h1 h2 ⊢
  omega

theorem descKeyLe_total (a b : Nat × Nat) :
    (descKeyLe a b || descKeyLe b a) = true := by
  simp only [descKeyLe, Bool.or_eq_true, Bool.and_eq_true, decide_eq_true_eq,
    beq_iff_eq]
  omega

/-- Claim C6 (amended): within each bucket, candidates are ordered so
that a strictly higher score comes first, and on equal scores the HIGHER
`faculty_id` comes first (Python's `reverse=True` sort on the key
`(score, faculty_id)` reverses the id tie-break as well). -/
theorem c6_bucket_order (st : RunState) (sec : Section) (bucket : List Faculty) :
    (sort_bucket st sec bucket).Pairwise (fun a b =>
      scoreFaculty st sec b < scoreFaculty st sec a ∨
        (scoreFaculty st sec b = scoreFaculty st sec a ∧
          b.faculty_id ≤ a.faculty_id)) := by
  have h := @pairwise_sortLe Faculty
    (fun a b => descKeyLe (bucketKey st sec a) (bucketKey st sec b))
    (fun a b => descKeyLe_total _ _)
    (fun a b c => descKeyLe_trans _ _ _) bucket
  refine h.imp ?_
  intro a b hab
  simp only [descKeyLe, bucketKey, Bool.or_eq_true, Bool.and_eq_true,
    decide_eq_true_eq, beq_iff_eq] at hab
  omega

/-- Claim C6, counterexample: two candidates with equal score are ordered
with the HIGHER faculty_id first, so "the one with the LOWER faculty_id
comes first" is false as stated. -/
theorem c6_tie_counterexample :
    scoreFaculty c6St c6Sec c6F1 = scoreFaculty c6St c6Sec c6F2 ∧
    c6F1.faculty_id < c6F2.faculty_id ∧
    sort_bucket c6St c6Sec [c6F1, c6F2] = [c6F2, c6F1] := by decide

/-! ### Claim C7 — employment/specialization guarantees of the selector -/

theorem mem_bucket {cat : Catalog} {st : RunState} {c : Course} {e : EmpCat}
    {spec : Bool} {f : Faculty} (h : f ∈ bucket cat st c e spec) :
    f ∈ cat.faculty ∧ has_faculty_capacity st f = true ∧ empCategory f = e ∧
      is_specialized c f = spec := by
  unfold bucket at h
  rw [List.mem_filter] at h
  obtain ⟨hmem, hp⟩ := h
  simp only [Bool.and_eq_true, beq_iff_eq] at hp
  exact ⟨hmem, hp.1.1, hp.1.2, hp.2⟩

theorem mem_sort_bucket {st : RunState} {sec : Section} {l : List Faculty}
    {f : Faculty} (h : f ∈ sort_bucket st sec l) : f ∈ l := by
  unfold sort_bucket at h
  exact mem_sortLe.mp h

/-- Find in a sorted bucket lands in the underlying partition. -/
theorem find_sort_bucket_mem {st : RunState} {sec : Section} {l : List Faculty}
    {p : Faculty → Bool} {f : Faculty}
    (h : (sort_bucket st sec l).find? p = some f) : f ∈ l :=
  mem_sort_bucket (List.mem_of_find?_eq_some h)

/-- Claim C7: whenever the Faculty Selector returns a faculty for a major
course, that faculty's specialization contains the course code and its
employment category is not affiliate; whenever it returns a faculty for a
minor course, that faculty is not permanent. -/
theorem c7_selector_eligibility (cat : Catalog) (st : RunState) (c : Course)
    (sec : Section) (f : Faculty)
    (h : find_best_faculty_rl cat st c sec = some f) :
    (isMajorCourse c = true →
      is_specialized c f = true ∧ empCategory f ≠ EmpCat.affiliate) ∧
    (isMajorCourse c = false → empCategory f ≠ EmpCat.permanent) := by
  unfold find_best_faculty_rl at h
  constructor
  · intro hmaj
    rw [hmaj] at h
    simp only [if_true] at h
    rcases hps : (sort_bucket st sec (bucket cat st c .permanent true)).find?
        (majorGuard st c) with _ | g
    · rw [hps] at h
      simp only [Option.orElse, Option.none_orElse] at h
      have hm := mem_bucket (find_sort_bucket_mem h)
      refine ⟨hm.2.2.2, ?_⟩
      rw [hm.2.2.1]
      intro hc
      exact EmpCat.noConfusion hc
    · rw [hps] at h
      simp only [Option.orElse, Option.some_orElse] at h
      cases h
      have hm := mem_bucket (find_sort_bucket_mem hps)
      refine ⟨hm.2.2.2, ?_⟩
      rw [hm.2.2.1]
      intro hc
      exact EmpCat.noConfusion hc
  · intro hmin
    rw [hmin] at h
    simp only [Bool.false_eq_true, if_false] at h
    rcases h1 : (sort_bucket st sec (bucket cat st c .affiliate true)).find?
        (minorGuard st c) with _ | g
    · rcases h2 : (sort_bucket st sec (bucket cat st c .affiliate false)).find?
          (minorGuard st c) with _ | g2
      · rcases h3 : (sort_bucket st sec (bucket cat st c .parttime true)).find?
            (minorGuard st c) with _ | g3
        · rw [h1, h2, h3] at h
          simp only [Option.orElse, Option.none_orElse] at h
          have hm := mem_bucket (find_sort_bucket_mem h)
          rw [hm.2.2.1]
          intro hc
          exact EmpCat.noConfusion hc
        · rw [h1, h2, h3] at h
          simp only [Option.orElse, Option.none_orElse, Option.some_orElse] at h
          cases h
          have hm := mem_bucket (find_sort_bucket_mem h3)
          rw [hm.2.2.1]
          intro hc
          exact EmpCat.noConfusion hc
      · rw [h1, h2] at h
        simp only [Option.orElse, Option.none_orElse, Option.some_orElse] at h
        cases h
        have hm := mem_bucket (find_sort_bucket_mem h2)
        rw [hm.2.2.1]
        intro hc
        exact EmpCat.noConfusion hc
    · rw [h1] at h
      simp only [Option.orElse, Option.some_orElse] at h
      cases h
      have hm := mem_bucket (find_sort_bucket_mem h1)
      rw [hm.2.2.1]
      intro hc
      exact EmpCat.noConfusion hc

/-- Claim C7, witness: a concrete selection of a specialized part-time
faculty for a major course satisfies the eligibility guarantees. -/
theorem c7_selector_eligibility_witness :
    is_specialized c7Course c7F = true ∧ empCategory c7F ≠ EmpCat.affiliate :=
  (c7_selector_eligibility c7Cat c7St c7Course c7Sec c7F (by decide)).1 (by decide)

/-! ### Extension lemmas: session commits only append to the ledgers and
leave the assignment bookkeeping untouched -/

theorem ledgerExtends_of_eq {st st' : RunState}
    (hf : st'.faculty_schedules = st.faculty_schedules)
    (hr : st'.room_schedules = st.room_schedules)
    (hs : st'.section_schedules = st.section_schedules)
    (ho : st'.out = st.out) : LedgerExtends st st' := by
  refine ⟨fun fid d => ⟨[], ?_⟩, fun rid d => ⟨[], ?_⟩, fun sid d => ⟨[], ?_⟩, ⟨[], ?_⟩⟩
  all_goals simp [slotsOfF, slotsOfR, slotsOfS, hf, hr, hs, ho]

theorem ledgerExtends_refl (st : RunState) : LedgerExtends st st :=
  ledgerExtends_of_eq rfl rfl rfl rfl

theorem stepExtends_refl (st : RunState) : StepExtends st st :=
  ⟨rfl, rfl, rfl, ledgerExtends_refl st⟩

theorem stepExtends_trans {s1 s2 s3 : RunState} (h1 : StepExtends s1 s2)
    (h2 : StepExtends s2 s3) : StepExtends s1 s3 := by
  obtain ⟨hc1, hp1, hb1, hF1, hR1, hS1, hO1⟩ := h1
  obtain ⟨hc2, hp2, hb2, hF2, hR2, hS2, hO2⟩ := h2
  refine ⟨hc2.trans hc1, hp2.trans hp1, hb2.trans hb1, ?_, ?_, ?_, ?_⟩
  · intro fid d
    obtain ⟨t1, e1⟩ := hF1 fid d
    obtain ⟨t2, e2⟩ := hF2 fid d
    exact ⟨t1 ++ t2, by rw [e2, e1, List.append_assoc]⟩
  · intro rid d
    obtain ⟨t1, e1⟩ := hR1 rid d
    obtain ⟨t2, e2⟩ := hR2 rid d
    exact ⟨t1 ++ t2, by rw [e2, e1, List.append_assoc]⟩
  · intro sid d
    obtain ⟨t1, e1⟩ := hS1 sid d
    obtain ⟨t2, e2⟩ := hS2 sid d
    exact ⟨t1 ++ t2, by rw [e2, e1, List.append_assoc]⟩
  · obtain ⟨t1, e1⟩ := hO1
    obtain ⟨t2, e2⟩ := hO2
    exact ⟨t1 ++ t2, by rw [e2, e1, List.append_assoc]⟩

theorem slotsAt_aset_extends [DecidableEq κ] (ms : List (κ × DaySched)) (k : κ)
    (m : DaySched) (day : Day) (slot : TimeSlot) (hm : alookup ms k = some m)
    (k' : κ) (d' : Day) :
    ∃ t, slotsAt (aset ms k (updDay m day slot)) k' d' = slotsAt ms k' d' ++ t := by
  by_cases hk : k = k'
  · subst hk
    refine ⟨if d' = day then [slot] else [], ?_⟩
    rw [slotsAt, alookup_aset_self, slotsAt, hm]
    by_cases hd : d' = day
    · simp [updDay, hd]
    · simp [updDay, hd]
  · refine ⟨[], ?_⟩
    rw [slotsAt, alookup_aset_ne _ _ _ _ hk, slotsAt]
    simp

theorem add_to_schedule_extends {st : RunState} {fid : Nat} {rid : Int}
    {sid : Nat} {day : Day} {slot : TimeSlot} {st' : RunState}
    (h : add_to_schedule st fid rid sid day slot = Except.ok st') :
    StepExtends st st' := by
  rcases h1 : alookup st.faculty_schedules fid with _ | fm
  · simp [add_to_schedule, h1] at h
  rcases h2 : alookup st.room_schedules rid with _ | rm
  · simp [add_to_schedule, h1, h2] at h
  rcases h3 : alookup st.section_schedules sid with _ | sm
  · simp [add_to_schedule, h1, h2, h3] at h
  simp only [add_to_schedule, h1, h2, h3, Except.ok.injEq] at h
  subst h
  refine ⟨rfl, rfl, rfl, ?_, ?_, ?_, ⟨[], by simp⟩⟩
  · intro fid' d'
    exact slotsAt_aset_extends st.faculty_schedules fid fm day slot h1 fid' d'
  · intro rid' d'
    exact slotsAt_aset_extends st.room_schedules rid rm day slot h2 rid' d'
  · intro sid' d'
    exact slotsAt_aset_extends st.section_schedules sid sm day slot h3 sid' d'

theorem stepExtends_out_append (st : RunState) (s : Session) :
    StepExtends st { st with out := st.out ++ [s] } :=
  ⟨rfl, rfl, rfl,
    ⟨fun _ _ => ⟨[], by simp [slotsOfF]⟩, fun _ _ => ⟨[], by simp [slotsOfR]⟩,
     fun _ _ => ⟨[], by simp [slotsOfS]⟩, ⟨[s], rfl⟩⟩⟩

theorem assign_session_rl_extends {cat : Catalog} {st : RunState} {c : Course}
    {sec : Section} {f : Faculty} {r : Room} {mode : Mode} {forbidden : List Day}
    {st' : RunState} {d? : Option Day}
    (h : assign_session_rl cat st c sec f r mode forbidden = .ok (st', d?)) :
    StepExtends st st' := by
  rw [assign_session_rl] at h
  rcases hf : find_available_time_slot cat st f.faculty_id r.room_id sec.section_id
      forbidden ((sec.section_id + c.course_id + mode_offset mode) % weekdays.length)
    with e | od
  · simp [hf] at h
  rcases od with _ | ds
  · simp only [hf, Except.ok.injEq, Prod.mk.injEq] at h
    rw [← h.1]
    exact stepExtends_refl st
  obtain ⟨day, slot⟩ := ds
  rcases hadd : add_to_schedule st f.faculty_id r.room_id sec.section_id day slot
    with e | st1
  · simp [hf, hadd] at h
  simp only [hf, hadd, Except.ok.injEq, Prod.mk.injEq] at h
  rw [← h.1]
  exact stepExtends_trans (add_to_schedule_extends hadd) (stepExtends_out_append st1 _)

theorem stepExtends_bump (st : RunState) (pid : Nat) (rid : Int) :
    StepExtends st (bump_room_usage st pid rid) := by
  rcases h1 : alookup st.program_room_usage pid with _ | m
  · simp only [bump_room_usage, h1]
    exact stepExtends_refl st
  rcases h2 : alookup m rid with _ | n
  · simp only [bump_room_usage, h1, h2]
    exact stepExtends_refl st
  simp only [bump_room_usage, h1, h2]
  exact ⟨rfl, rfl, rfl, ledgerExtends_of_eq rfl rfl rfl rfl⟩

theorem try_f2f_rooms_extends {cat : Catalog} {c : Course} {sec : Section}
    {f : Faculty} : ∀ (rooms : List Room) {st st' : RunState} {d? : Option Day},
    try_f2f_rooms cat c sec f rooms st = .ok (st', d?) → StepExtends st st' := by
  intro rooms
  induction rooms with
  | nil =>
      intro st st' d? h
      simp only [try_f2f_rooms, Except.ok.injEq, Prod.mk.injEq] at h
      rw [← h.1]
      exact stepExtends_refl st
  | cons r rest ih =>
      intro st st' d? h
      rw [try_f2f_rooms] at h
      rcases ha : assign_session_rl cat st c sec f r .f2f [] with e | p
      · simp [ha] at h
      obtain ⟨st1, od⟩ := p
      rcases od with _ | day
      · rw [ha] at h
        exact stepExtends_trans (assign_session_rl_extends ha) (ih h)
      · rw [ha] at h
        simp only [Except.ok.injEq, Prod.mk.injEq] at h
        rw [← h.1]
        exact stepExtends_trans (assign_session_rl_extends ha)
          (stepExtends_bump st1 sec.program_id r.room_id)

theorem assign_course_sessions_core_extends {cat : Catalog} {st : RunState}
    {c : Course} {sec : Section} {f : Faculty} {st' : RunState} {d? : Option Day}
    {ok : Bool} (h : assign_course_sessions_core cat st c sec f = .ok (st', d?, ok)) :
    StepExtends st st' := by
  rw [assign_course_sessions_core] at h
  rcases h1 : try_f2f_rooms cat c sec f
      (get_available_rooms_for_program cat st sec.program_id c.course_type) st
    with e | p
  · simp [h1] at h
  obtain ⟨st1, f2f_day⟩ := p
  rw [h1] at h
  rcases f2f_day with _ | fd
  · rcases h2 : assign_session_rl cat st1 c sec f
        ((cat.rooms.find? (fun r => pyLower r.room_type == "online")).getD
          (fallbackOnlineRoom sec)) .online [] with e | q
    · simp [h2] at h
    obtain ⟨st2, online_day⟩ := q
    simp only [h2, Except.ok.injEq, Prod.mk.injEq] at h
    rw [← h.1]
    exact stepExtends_trans (try_f2f_rooms_extends _ h1) (assign_session_rl_extends h2)
  · rcases h2 : assign_session_rl cat st1 c sec f
        ((cat.rooms.find? (fun r => pyLower r.room_type == "online")).getD
          (fallbackOnlineRoom sec)) .online [fd] with e | q
    · simp [h2] at h
    obtain ⟨st2, online_day⟩ := q
    simp only [h2, Except.ok.injEq, Prod.mk.injEq] at h
    rw [← h.1]
    exact stepExtends_trans (try_f2f_rooms_extends _ h1) (assign_session_rl_extends h2)

/-! ### Soundness of the conflict check -/

theorem time_slots_overlap_comm (a b : TimeSlot) :
    time_slots_overlap a b = time_slots_overlap b a := by
  rw [time_slots_overlap, time_slots_overlap, Bool.or_comm]

theorem check_sect_sound {st : RunState} {sid : Nat} {day : Day} {slot : TimeSlot}
    (h : check_conflicts_sect st sid day slot = .ok false) :
    ∀ t ∈ slotsOfS st sid day, time_slots_overlap slot t = false := by
  rw [check_conflicts_sect] at h
  rcases h1 : alookup st.section_schedules sid with _ | ssched
  · simp [h1] at h
  simp only [h1] at h
  simp only [Except.ok.injEq] at h
  intro t ht
  rw [slotsOfS, slotsAt, h1] at ht
  have := List.any_eq_false.mp h t ht
  simpa using this

theorem check_conflicts_sound {cat : Catalog} {st : RunState} {fid : Nat}
    {rid : Int} {sid : Nat} {day : Day} {slot : TimeSlot}
    (h : check_conflicts cat st fid rid sid day slot = .ok false) :
    (∀ t ∈ slotsOfF st fid day, time_slots_overlap slot t = false) ∧
    (physRoomCheck cat rid = true →
      ∀ t ∈ slotsOfR st rid day, time_slots_overlap slot t = false) ∧
    (∀ t ∈ slotsOfS st sid day, time_slots_overlap slot t = false) := by
  rw [check_conflicts] at h
  rcases h1 : alookup st.faculty_schedules fid with _ | fsched
  · simp [h1] at h
  simp only [h1] at h
  by_cases hfany : ((fsched day).any fun t => time_slots_overlap slot t) = true
  · simp [hfany] at h
  have hfany' : ((fsched day).any fun t => time_slots_overlap slot t) = false :=
    Bool.eq_false_iff.mpr hfany
  rw [hfany'] at h
  simp only [Bool.false_eq_true, if_false] at h
  have hfac : ∀ t ∈ slotsOfF st fid day, time_slots_overlap slot t = false := by
    intro t ht
    rw [slotsOfF, slotsAt, h1] at ht
    have := List.any_eq_false.mp hfany' t ht
    simpa using this
  by_cases hpr : physRoomCheck cat rid = true
  · rw [if_pos hpr] at h
    rcases h2 : alookup st.room_schedules rid with _ | rsched
    · simp [h2] at h
    simp only [h2] at h
    by_cases hrany : ((rsched day).any fun t => time_slots_overlap slot t) = true
    · simp [hrany] at h
    have hrany' : ((rsched day).any fun t => time_slots_overlap slot t) = false :=
      Bool.eq_false_iff.mpr hrany
    rw [hrany'] at h
    simp only [Bool.false_eq_true, if_false] at h
    refine ⟨hfac, fun _ t ht => ?_, check_sect_sound h⟩
    rw [slotsOfR, slotsAt, h2] at ht
    have := List.any_eq_false.mp hrany' t ht
    simpa using this
  · rw [if_neg hpr] at h
    exact ⟨hfac, fun hc => absurd hc hpr, check_sect_sound h⟩

/-! ### Characterisation of slot search and session placement -/

theorem find_slot_sound {cat : Catalog} {st : RunState} {fid : Nat} {rid : Int}
    {sid : Nat} {day : Day} :
    ∀ {slots : List TimeSlot} {slot : TimeSlot},
    find_slot_in_day cat st fid rid sid day slots = .ok (some slot) →
    check_conflicts cat st fid rid sid day slot = .ok false := by
  intro slots
  induction slots with
  | nil =>
      intro slot h
      simp [find_slot_in_day] at h
  | cons s rest ih =>
      intro slot h
      rw [find_slot_in_day] at h
      rcases hc : check_conflicts cat st fid rid sid day s with e | b
      · simp [hc] at h
      rcases b with _ | _
      · simp only [hc, Except.ok.injEq, Option.some.injEq] at h
        rw [← h]
        exact hc
      · simp only [hc] at h
        exact ih h

theorem find_avail_sound {cat : Catalog} {st : RunState} {fid : Nat} {rid : Int}
    {sid : Nat} {forbidden : List Day} :
    ∀ {days : List Day} {day : Day} {slot : TimeSlot},
    find_avail_days cat st fid rid sid forbidden days = .ok (some (day, slot)) →
    forbidden.contains day = false ∧
    check_conflicts cat st fid rid sid day slot = .ok false := by
  intro days
  induction days with
  | nil =>
      intro day slot h
      simp [find_avail_days] at h
  | cons d rest ih =>
      intro day slot h
      rw [find_avail_days] at h
      by_cases hf : forbidden.contains d = true
      · simp only [hf, if_true] at h
        exact ih h
      · have hf' : forbidden.contains d = false := Bool.eq_false_iff.mpr hf
        rw [hf'] at h
        simp only [Bool.false_eq_true, if_false] at h
        rcases hs : find_slot_in_day cat st fid rid sid d cat.time_slots with e | os
        · simp [hs] at h
        rcases os with _ | slot2
        · simp only [hs] at h
          exact ih h
        · simp only [hs, Except.ok.injEq, Option.some.injEq, Prod.mk.injEq] at h
          obtain ⟨hd, hslot⟩ := h
          rw [← hd, ← hslot]
          exact ⟨hf', find_slot_sound hs⟩

theorem slotsAt_aset_char [DecidableEq κ] (ms : List (κ × DaySched)) (k : κ)
    (m : DaySched) (day : Day) (slot : TimeSlot) (hm : alookup ms k = some m)
    (k' : κ) (d' : Day) :
    slotsAt (aset ms k (updDay m day slot)) k' d' =
      if k' = k ∧ d' = day then slotsAt ms k' d' ++ [slot]
      else slotsAt ms k' d' := by
  by_cases hk : k' = k
  · subst hk
    rw [slotsAt, alookup_aset_self, slotsAt, hm]
    by_cases hd : d' = day
    · simp [updDay, hd]
    · simp [updDay, hd]
  · rw [slotsAt, alookup_aset_ne _ _ _ _ (fun he => hk he.symm), slotsAt]
    simp [hk]

theorem add_to_schedule_spec {st : RunState} {fid : Nat} {rid : Int} {sid : Nat}
    {day : Day} {slot : TimeSlot} {st' : RunState}
    (h : add_to_schedule st fid rid sid day slot = Except.ok st') :
    (∀ fid' d', slotsOfF st' fid' d' =
      if fid' = fid ∧ d' = day then slotsOfF st fid' d' ++ [slot]
      else slotsOfF st fid' d') ∧
    (∀ rid' d', slotsOfR st' rid' d' =
      if rid' = rid ∧ d' = day then slotsOfR st rid' d' ++ [slot]
      else slotsOfR st rid' d') ∧
    (∀ sid' d', slotsOfS st' sid' d' =
      if sid' = sid ∧ d' = day then slotsOfS st sid' d' ++ [slot]
      else slotsOfS st sid' d') ∧
    st'.out = st.out ∧
    st'.faculty_course_count = st.faculty_course_count ∧
    st'.assigned_pairs = st.assigned_pairs ∧
    st'.faculty_spec_backlog = st.faculty_spec_backlog := by
  rcases h1 : alookup st.faculty_schedules fid with _ | fm
  · simp [add_to_schedule, h1] at h
  rcases h2 : alookup st.room_schedules rid with _ | rm
  · simp [add_to_schedule, h1, h2] at h
  rcases h3 : alookup st.section_schedules sid with _ | sm
  · simp [add_to_schedule, h1, h2, h3] at h
  simp only [add_to_schedule, h1, h2, h3, Except.ok.injEq] at h
  subst h
  refine ⟨?_, ?_, ?_, rfl, rfl, rfl, rfl⟩
  · intro fid' d'
    exact slotsAt_aset_char st.faculty_schedules fid fm day slot h1 fid' d'
  · intro rid' d'
    exact slotsAt_aset_char st.room_schedules rid rm day slot h2 rid' d'
  · intro sid' d'
    exact slotsAt_aset_char st.section_schedules sid sm day slot h3 sid' d'

theorem assign_session_rl_none {cat : Catalog} {st : RunState} {c : Course}
    {sec : Section} {f : Faculty} {r : Room} {mode : Mode} {forbidden : List Day}
    {st' : RunState}
    (h : assign_session_rl cat st c sec f r mode forbidden = .ok (st', none)) :
    st' = st := by
  rw [assign_session_rl] at h
  rcases hf : find_available_time_slot cat st f.faculty_id r.room_id sec.section_id
      forbidden ((sec.section_id + c.course_id + mode_offset mode) % weekdays.length)
    with e | od
  · simp [hf] at h
  rcases od with _ | ds
  · simp only [hf, Except.ok.injEq, Prod.mk.injEq] at h
    exact h.1.symm
  obtain ⟨day, slot⟩ := ds
  rcases hadd : add_to_schedule st f.faculty_id r.room_id sec.section_id day slot
    with e | st1
  · simp [hf, hadd] at h
  simp [hf, hadd] at h

theorem assign_session_rl_spec {cat : Catalog} {st : RunState} {c : Course}
    {sec : Section} {f : Faculty} {r : Room} {mode : Mode} {forbidden : List Day}
    {st' : RunState} {day : Day}
    (h : assign_session_rl cat st c sec f r mode forbidden = .ok (st', some day)) :
    forbidden.contains day = false ∧
    ∃ slot st1,
      check_conflicts cat st f.faculty_id r.room_id sec.section_id day slot = .ok false ∧
      add_to_schedule st f.faculty_id r.room_id sec.section_id day slot = .ok st1 ∧
      st' = { st1 with out := st1.out ++ [mkSession c sec f r mode day slot] } := by
  rw [assign_session_rl] at h
  rcases hf : find_available_time_slot cat st f.faculty_id r.room_id sec.section_id
      forbidden ((sec.section_id + c.course_id + mode_offset mode) % weekdays.length)
    with e | od
  · simp [hf] at h
  rcases od with _ | ds
  · simp [hf] at h
  obtain ⟨d2, slot⟩ := ds
  rcases hadd : add_to_schedule st f.faculty_id r.room_id sec.section_id d2 slot
    with e | st1
  · simp [hf, hadd] at h
  simp only [hf, hadd, Except.ok.injEq, Prod.mk.injEq, Option.some.injEq] at h
  obtain ⟨hst, hd⟩ := h
  subst hd
  rw [find_available_time_slot] at hf
  have hsound := find_avail_sound hf
  exact ⟨hsound.1, slot, st1, hsound.2, hadd, hst.symm⟩

/-! ### Invariant preservation -/

theorem pairSess_mono {out t : List Session} {p : Nat × Nat}
    (h : PairSess out p) : PairSess (out ++ t) p := by
  obtain ⟨s1, h1, e1, e2, e3, s2, h2, e4, e5, e6, e7⟩ := h
  exact ⟨s1, List.mem_append_left t h1, e1, e2, e3,
         s2, List.mem_append_left t h2, e4, e5, e6, e7⟩

/-- Candidate rooms returned by the room selector satisfy the type and
program-affinity constraints. -/
theorem rooms_shape {cat : Catalog} {st : RunState} {pid : Nat} {ctype : String}
    {r : Room} (h : r ∈ get_available_rooms_for_program cat st pid ctype) :
    (pyLower ctype = "major" → pyLower r.room_type = "laboratory") ∧
    (r.program_id = none ∨ r.program_id = some pid) := by
  rw [get_available_rooms_for_program] at h
  have hmem : r ∈ cat.rooms.filter (fun r =>
      (!isVirtualType (pyLower r.room_type) &&
        !(pyLower ctype == "major" && pyLower r.room_type != "laboratory")) &&
      r.program_id == some pid) ∨
    r ∈ cat.rooms.filter (fun r =>
      (!isVirtualType (pyLower r.room_type) &&
        !(pyLower ctype == "major" && pyLower r.room_type != "laboratory")) &&
      r.program_id == none) := by
    by_cases hm : (pyLower ctype == "minor") = true
    · simp only [hm, if_true] at h
      rcases List.mem_append.mp h with h | h
      · exact Or.inl (mem_sortLe.mp h)
      · exact Or.inr (mem_sortLe.mp h)
    · simp only [Bool.eq_false_iff.mpr hm, Bool.false_eq_true, if_false] at h
      rcases List.mem_append.mp h with h | h
      · exact Or.inl (mem_sortLe.mp h)
      · exact Or.inr (mem_sortLe.mp h)
  rcases hmem with h' | h'
  · have hp := (List.mem_filter.mp h').2
    simp only [Bool.and_eq_true, Bool.not_eq_true', beq_iff_eq] at hp
    refine ⟨?_, Or.inr hp.2⟩
    intro hmaj
    have h2 := hp.1.2
    rw [beq_iff_eq.mpr hmaj, Bool.true_and] at h2
    exact bne_eq_false_iff_eq.mp h2
  · have hp := (List.mem_filter.mp h').2
    simp only [Bool.and_eq_true, Bool.not_eq_true', beq_iff_eq] at hp
    refine ⟨?_, Or.inl hp.2⟩
    intro hmaj
    have h2 := hp.1.2
    rw [beq_iff_eq.mpr hmaj, Bool.true_and] at h2
    exact bne_eq_false_iff_eq.mp h2

/-- Invariant preservation for a single `_assign_session_rl` call, with
the placement facts needed by the callers. -/
theorem inv_assign_session {cat : Catalog} {st : RunState} {c : Course}
    {sec : Section} {f : Faculty} {r : Room} {mode : Mode} {forbidden : List Day}
    {st' : RunState} {d? : Option Day}
    (hinv : Inv cat st)
    (hshape : mode = Mode.f2f → RoomShapeOk c sec r)
    (h : assign_session_rl cat st c sec f r mode forbidden = .ok (st', d?)) :
    Inv cat st' ∧ st'.assigned_pairs = st.assigned_pairs ∧
    st'.faculty_course_count = st.faculty_course_count ∧
    (∃ t, st'.out = st.out ++ t) ∧
    (∀ day, d? = some day → forbidden.contains day = false ∧
      ∃ s, s ∈ st'.out ∧ s.section_id = sec.section_id ∧ s.course_id = c.course_id ∧
        s.delivery = mode ∧ s.day = day) := by
  rcases d? with _ | day
  · have heq := assign_session_rl_none h
    subst heq
    exact ⟨hinv, rfl, rfl, ⟨[], by simp⟩, fun day hd => by cases hd⟩
  obtain ⟨hforb, slot, st1, hcheck, hadd, hst⟩ := assign_session_rl_spec h
  obtain ⟨hF, hR, hS, hout1, hcnt1, hpair1, hback1⟩ := add_to_schedule_spec hadd
  obtain ⟨hfac, hroom, hsect⟩ := check_conflicts_sound hcheck
  subst hst
  refine ⟨?_, hpair1, hcnt1, ⟨[mkSession c sec f r mode day slot], by rw [hout1]⟩,
    ?_⟩
  · constructor
    · -- pairwise
      show (st1.out ++ [mkSession c sec f r mode day slot]).Pairwise (NoClash cat)
      rw [hout1, List.pairwise_append]
      refine ⟨hinv.pw, by simp, ?_⟩
      intro a ha b hb
      simp only [List.mem_singleton] at hb
      subst hb
      intro hday
      refine ⟨?_, ?_, ?_⟩
      · intro hfid
        have hm := hinv.memF a ha
        rw [show (mkSession c sec f r mode day slot).faculty_id = f.faculty_id from rfl] at hfid
        rw [show (mkSession c sec f r mode day slot).day = day from rfl] at hday
        rw [hfid, hday] at hm
        rw [time_slots_overlap_comm]
        exact hfac a.slot hm
      · intro hsid
        have hm := hinv.memS a ha
        rw [show (mkSession c sec f r mode day slot).section_id = sec.section_id from rfl] at hsid
        rw [show (mkSession c sec f r mode day slot).day = day from rfl] at hday
        rw [hsid, hday] at hm
        rw [time_slots_overlap_comm]
        exact hsect a.slot hm
      · intro hrid hphys
        have hm := hinv.memR a ha
        rw [show (mkSession c sec f r mode day slot).room_id = r.room_id from rfl] at hrid
        rw [show (mkSession c sec f r mode day slot).day = day from rfl] at hday
        rw [hrid] at hphys
        rw [hrid, hday] at hm
        rw [time_slots_overlap_comm]
        exact hroom hphys a.slot hm
    · -- memF
      intro s hs
      show s.slot ∈ slotsOfF st1 s.faculty_id s.day
      rw [hout1] at hs
      rcases List.mem_append.mp hs with hs | hs
      · rw [hF s.faculty_id s.day]
        split
        · exact List.mem_append_left _ (hinv.memF s hs)
        · exact hinv.memF s hs
      · simp only [List.mem_singleton] at hs
        subst hs
        rw [hF]
        simp [mkSession]
    · -- memR
      intro s hs
      show s.slot ∈ slotsOfR st1 s.room_id s.day
      rw [hout1] at hs
      rcases List.mem_append.mp hs with hs | hs
      · rw [hR s.room_id s.day]
        split
        · exact List.mem_append_left _ (hinv.memR s hs)
        · exact hinv.memR s hs
      · simp only [List.mem_singleton] at hs
        subst hs
        rw [hR]
        simp [mkSession]
    · -- memS
      intro s hs
      show s.slot ∈ slotsOfS st1 s.section_id s.day
      rw [hout1] at hs
      rcases List.mem_append.mp hs with hs | hs
      · rw [hS s.section_id s.day]
        split
        · exact List.mem_append_left _ (hinv.memS s hs)
        · exact hinv.memS s hs
      · simp only [List.mem_singleton] at hs
        subst hs
        rw [hS]
        simp [mkSession]
    · -- shape
      intro s hs
      rw [hout1] at hs
      rcases List.mem_append.mp hs with hs | hs
      · exact hinv.shape s hs
      · simp only [List.mem_singleton] at hs
        subst hs
        intro hdel
        have hro := hshape (by exact hdel)
        exact ⟨hro.1, hro.2⟩
    · -- pairsOk
      intro p hp
      rw [hpair1] at hp
      have := hinv.pairsOk p hp
      rw [hout1]
      exact pairSess_mono this
    · -- counts
      intro hnd g hg
      have := hinv.counts hnd g hg
      show (alookup st1.faculty_course_count g.faculty_id).getD 0 ≤ _
      rw [hcnt1]
      exact this
  · intro d hd
    injection hd with hd
    subst hd
    refine ⟨hforb, mkSession c sec f r mode day slot, ?_, rfl, rfl, rfl, rfl⟩
    rw [hout1]
    exact List.mem_append_right _ (List.mem_singleton_self _)

/-- `bump_room_usage` changes only the usage map. -/
theorem bump_fields (st : RunState) (pid : Nat) (rid : Int) :
    (bump_room_usage st pid rid).faculty_schedules = st.faculty_schedules ∧
    (bump_room_usage st pid rid).room_schedules = st.room_schedules ∧
    (bump_room_usage st pid rid).section_schedules = st.section_schedules ∧
    (bump_room_usage st pid rid).faculty_course_count = st.faculty_course_count ∧
    (bump_room_usage st pid rid).assigned_pairs = st.assigned_pairs ∧
    (bump_room_usage st pid rid).faculty_spec_backlog = st.faculty_spec_backlog ∧
    (bump_room_usage st pid rid).out = st.out := by
  rcases h1 : alookup st.program_room_usage pid with _ | m
  · simp [bump_room_usage, h1]
  rcases h2 : alookup m rid with _ | n
  · simp [bump_room_usage, h1, h2]
  simp [bump_room_usage, h1, h2]

/-- The invariant does not mention the usage map. -/
theorem inv_bump {cat : Catalog} {st : RunState} (hinv : Inv cat st)
    (pid : Nat) (rid : Int) : Inv cat (bump_room_usage st pid rid) := by
  obtain ⟨hf, hr, hs, hc, hp, hb, ho⟩ := bump_fields st pid rid
  refine ⟨?_, ?_, ?_, ?_, ?_, ?_, ?_⟩
  · rw [ho]
    exact hinv.pw
  · intro s hsm
    rw [ho] at hsm
    rw [slotsOfF, hf]
    exact hinv.memF s hsm
  · intro s hsm
    rw [ho] at hsm
    rw [slotsOfR, hr]
    exact hinv.memR s hsm
  · intro s hsm
    rw [ho] at hsm
    rw [slotsOfS, hs]
    exact hinv.memS s hsm
  · intro s hsm
    rw [ho] at hsm
    exact hinv.shape s hsm
  · intro p hpm
    rw [hp] at hpm
    rw [ho]
    exact hinv.pairsOk p hpm
  · intro hnd g hg
    rw [countOf, hc]
    exact hinv.counts hnd g hg

theorem inv_try_f2f {cat : Catalog} {c : Course} {sec : Section} {f : Faculty} :
    ∀ {rooms : List Room} {st st' : RunState} {d? : Option Day},
    (∀ r ∈ rooms, RoomShapeOk c sec r) → Inv cat st →
    try_f2f_rooms cat c sec f rooms st = .ok (st', d?) →
    Inv cat st' ∧ st'.assigned_pairs = st.assigned_pairs ∧
    st'.faculty_course_count = st.faculty_course_count ∧
    (∃ t, st'.out = st.out ++ t) ∧
    (∀ day, d? = some day → ∃ s, s ∈ st'.out ∧ s.section_id = sec.section_id ∧
      s.course_id = c.course_id ∧ s.delivery = Mode.f2f ∧ s.day = day) := by
  intro rooms
  induction rooms with
  | nil =>
      intro st st' d? hsh hinv h
      simp only [try_f2f_rooms, Except.ok.injEq, Prod.mk.injEq] at h
      rw [← h.1, ← h.2]
      exact ⟨hinv, rfl, rfl, ⟨[], by simp⟩, fun day hd => by cases hd⟩
  | cons r rest ih =>
      intro st st' d? hsh hinv h
      rw [try_f2f_rooms] at h
      rcases ha : assign_session_rl cat st c sec f r .f2f [] with e | p
      · simp [ha] at h
      obtain ⟨st1, od⟩ := p
      rcases od with _ | day
      · rw [ha] at h
        have heq := assign_session_rl_none ha
        subst heq
        exact ih (fun r2 hr2 => hsh r2 (List.mem_cons_of_mem r hr2)) hinv h
      · rw [ha] at h
        simp only [Except.ok.injEq, Prod.mk.injEq] at h
        obtain ⟨hst, hd⟩ := h
        subst hst
        obtain ⟨hinv1, hp1, hc1, ⟨t, hout⟩, hplace⟩ := inv_assign_session hinv
          (fun _ => hsh r (List.mem_cons_self r rest)) ha
        obtain ⟨bf, br, bs, bc, bp, bb, bo⟩ :=
          bump_fields st1 sec.program_id r.room_id
        refine ⟨inv_bump hinv1 _ _, by rw [bp, hp1], by rw [bc, hc1],
          ⟨t, by rw [bo, hout]⟩, ?_⟩
        intro day2 hd2
        rw [← hd] at hd2
        injection hd2 with hd2
        subst hd2
        obtain ⟨_, s, hsm, e1, e2, e3, e4⟩ := hplace day rfl
        exact ⟨s, by rw [bo]; exact hsm, e1, e2, e3, e4⟩

/-- Invariant preservation and placement facts for
`assign_course_sessions_core`. -/
theorem inv_core {cat : Catalog} {st : RunState} {c : Course} {sec : Section}
    {f : Faculty} {st' : RunState} {d? : Option Day} {ok : Bool}
    (hinv : Inv cat st)
    (h : assign_course_sessions_core cat st c sec f = .ok (st', d?, ok)) :
    Inv cat st' ∧ st'.assigned_pairs = st.assigned_pairs ∧
    st'.faculty_course_count = st.faculty_course_count ∧
    (∀ day, d? = some day → ok = true →
      PairSess st'.out (sec.section_id, c.course_id)) := by
  rw [assign_course_sessions_core] at h
  rcases h1 : try_f2f_rooms cat c sec f
      (get_available_rooms_for_program cat st sec.program_id c.course_type) st
    with e | p
  · simp [h1] at h
  obtain ⟨st1, f2f_day⟩ := p
  rw [h1] at h
  have hshapes : ∀ r ∈ get_available_rooms_for_program cat st sec.program_id
      c.course_type, RoomShapeOk c sec r := fun r hr => rooms_shape hr
  obtain ⟨hinv1, hp1, hc1, ⟨t1, hout1⟩, hplace1⟩ := inv_try_f2f hshapes hinv h1
  rcases f2f_day with _ | fday
  · rcases h2 : assign_session_rl cat st1 c sec f
        ((cat.rooms.find? (fun r => pyLower r.room_type == "online")).getD
          (fallbackOnlineRoom sec)) .online [] with e | q
    · simp [h2] at h
    obtain ⟨st2, online_day⟩ := q
    simp only [h2, Except.ok.injEq, Prod.mk.injEq] at h
    obtain ⟨hst, hdnone, hok⟩ := h
    subst hst
    obtain ⟨hinv2, hp2, hc2, _, _⟩ := inv_assign_session hinv1 (fun hmf => by cases hmf) h2
    refine ⟨hinv2, by rw [hp2, hp1], by rw [hc2, hc1], ?_⟩
    intro day hd
    rw [← hdnone] at hd
    cases hd
  · rcases h2 : assign_session_rl cat st1 c sec f
        ((cat.rooms.find? (fun r => pyLower r.room_type == "online")).getD
          (fallbackOnlineRoom sec)) .online [fday] with e | q
    · simp [h2] at h
    obtain ⟨st2, online_day⟩ := q
    simp only [h2, Except.ok.injEq, Prod.mk.injEq] at h
    obtain ⟨hst, hdsome, hok⟩ := h
    subst hst
    obtain ⟨hinv2, hp2, hc2, ⟨t2, hout2⟩, hplace2⟩ := inv_assign_session hinv1
      (fun hmf => by cases hmf) h2
    refine ⟨hinv2, by rw [hp2, hp1], by rw [hc2, hc1], ?_⟩
    intro day hd hoktrue
    rw [← hdsome] at hd
    injection hd with hd
    subst hd
    rcases online_day with _ | oday
    · rw [← hok] at hoktrue
      cases hoktrue
    obtain ⟨hforb, s2, hs2m, f1, f2, f3, f4⟩ := hplace2 oday rfl
    obtain ⟨s1, hs1m, g1, g2, g3, g4⟩ := hplace1 fday rfl
    refine ⟨s1, by rw [hout2]; exact List.mem_append_left _ hs1m, g1, g2, g3,
      s2, hs2m, f1, f2, f3, ?_⟩
    rw [g4, f4]
    intro hdd
    subst hdd
    simp [List.contains] at hforb

theorem orElse_some {a : Option α} {g : Unit → Option α} {x : α}
    (h : a.orElse g = some x) : a = some x ∨ g () = some x := by
  rcases ha : a with _ | v
  · rw [ha] at h
    exact Or.inr h
  · rw [ha] at h
    exact Or.inl h

/-- Any faculty the selector returns is a catalog member with remaining
capacity. -/
theorem find_best_faculty_mem {cat : Catalog} {st : RunState} {c : Course}
    {sec : Section} {f : Faculty}
    (h : find_best_faculty_rl cat st c sec = some f) :
    f ∈ cat.faculty ∧ has_faculty_capacity st f = true := by
  rw [find_best_faculty_rl] at h
  by_cases hm : isMajorCourse c = true
  · rw [if_pos hm] at h
    rcases orElse_some h with h' | h'
    · have := mem_bucket (find_sort_bucket_mem h')
      exact ⟨this.1, this.2.1⟩
    · have := mem_bucket (find_sort_bucket_mem h')
      exact ⟨this.1, this.2.1⟩
  · rw [if_neg hm] at h
    rcases orElse_some h with h' | h'
    · rcases orElse_some h' with h'' | h''
      · rcases orElse_some h'' with h3 | h3
        · have := mem_bucket (find_sort_bucket_mem h3)
          exact ⟨this.1, this.2.1⟩
        · have := mem_bucket (find_sort_bucket_mem h3)
          exact ⟨this.1, this.2.1⟩
      · have := mem_bucket (find_sort_bucket_mem h'')
        exact ⟨this.1, this.2.1⟩
    · have := mem_bucket (find_sort_bucket_mem h')
      exact ⟨this.1, this.2.1⟩

theorem nodup_faculty_id_inj {cat : Catalog} (hnd : NodupFacultyIds cat)
    {f g : Faculty} (hf : f ∈ cat.faculty) (hg : g ∈ cat.faculty)
    (hid : g.faculty_id = f.faculty_id) : g = f :=
  List.inj_on_of_nodup_map hnd hg hf hid

/-- On a failed (false) result the assignment bookkeeping is untouched. -/
theorem acs_false_fields {cat : Catalog} {st : RunState} {c : Course}
    {sec : Section} {f : Faculty} {st1 : RunState}
    (h : assign_course_sessions_rl cat st c sec f = .ok (st1, false)) :
    st1.faculty_course_count = st.faculty_course_count ∧
    st1.assigned_pairs = st.assigned_pairs := by
  rw [assign_course_sessions_rl] at h
  by_cases hdup : st.assigned_pairs.contains (sec.section_id, c.course_id) = true
  · rw [if_pos hdup] at h
    simp only [Except.ok.injEq, Prod.mk.injEq] at h
    rw [← h.1]
    exact ⟨rfl, rfl⟩
  · rw [if_neg hdup] at h
    rcases hcore : assign_course_sessions_core cat st c sec f with e | p
    · simp [hcore] at h
    obtain ⟨st2, d?, onlineOk⟩ := p
    simp only [hcore] at h
    by_cases hsucc : (d?.isSome && onlineOk) = true
    · rw [if_pos hsucc] at h
      simp at h
    · rw [if_neg hsucc] at h
      simp only [Except.ok.injEq, Prod.mk.injEq] at h
      obtain ⟨hc, hp, _, _⟩ := assign_course_sessions_core_extends hcore
      rw [← h.1]
      exact ⟨hc, hp⟩

/-- The backlog decrement is invisible to the invariant. -/
theorem inv_decBacklog {cat : Catalog} {st : RunState} (hinv : Inv cat st)
    (c : Course) (f : Faculty) : Inv cat (decBacklogIfSpec st c f) := by
  rw [decBacklogIfSpec]
  by_cases h1 : pyIn (pyUpper c.course_code) (pyUpper f.specialization) = true
  · rw [if_pos h1]
    by_cases h2 : decide (0 < backlogOf st f.faculty_id) = true
    · rw [if_pos h2]
      exact ⟨hinv.pw, hinv.memF, hinv.memR, hinv.memS, hinv.shape, hinv.pairsOk,
        hinv.counts⟩
    · rw [if_neg h2]
      exact hinv
  · rw [if_neg h1]
    exact hinv

/-- Invariant preservation for `_assign_course_sessions_rl`: the caller
guarantees the faculty is a catalog member with remaining capacity. -/
theorem inv_acs {cat : Catalog} {st : RunState} {c : Course} {sec : Section}
    {f : Faculty} {st' : RunState} {ok : Bool}
    (hinv : Inv cat st) (hmem : f ∈ cat.faculty)
    (hcap : has_faculty_capacity st f = true)
    (h : assign_course_sessions_rl cat st c sec f = .ok (st', ok)) :
    Inv cat st' := by
  rw [assign_course_sessions_rl] at h
  by_cases hdup : st.assigned_pairs.contains (sec.section_id, c.course_id) = true
  · rw [if_pos hdup] at h
    simp only [Except.ok.injEq, Prod.mk.injEq] at h
    rw [← h.1]
    exact hinv
  rw [if_neg hdup] at h
  rcases hcore : assign_course_sessions_core cat st c sec f with e | p
  · simp [hcore] at h
  obtain ⟨st1, d?, onlineOk⟩ := p
  simp only [hcore] at h
  obtain ⟨hinv1, hp1, hc1, hpair⟩ := inv_core hinv hcore
  by_cases hsucc : (d?.isSome && onlineOk) = true
  · rw [if_pos hsucc] at h
    simp only [Except.ok.injEq, Prod.mk.injEq] at h
    rw [← h.1]
    apply inv_decBacklog _ c f
    rcases d? with _ | fday
    · simp at hsucc
    have honline : onlineOk = true := by
      rcases Bool.and_eq_true_iff.mp hsucc with ⟨_, hx⟩
      exact hx
    have hps : PairSess st1.out (sec.section_id, c.course_id) :=
      hpair fday rfl honline
    refine ⟨hinv1.pw, hinv1.memF, hinv1.memR, hinv1.memS, hinv1.shape, ?_, ?_⟩
    · intro p hpm
      rcases List.mem_append.mp hpm with hpm | hpm
      · exact hinv1.pairsOk p hpm
      · simp only [List.mem_singleton] at hpm
        subst hpm
        exact hps
    · intro hnd g hg
      show (alookup (aset st1.faculty_course_count f.faculty_id
        (countOf st1 f.faculty_id + 1)) g.faculty_id).getD 0 ≤ _
      by_cases hid : g.faculty_id = f.faculty_id
      · rw [hid, alookup_aset_self]
        have hgf : g = f := nodup_faculty_id_inj hnd hmem hg hid
        rw [hgf]
        show countOf st1 f.faculty_id + 1 ≤ get_faculty_course_limit f
        rw [countOf, hc1]
        have hlt : countOf st f.faculty_id < get_faculty_course_limit f := by
          have hc := hcap
          rw [has_faculty_capacity] at hc
          exact of_decide_eq_true hc
        exact Nat.succ_le_of_lt hlt
      · rw [alookup_aset_ne _ _ _ _ (fun he => hid he.symm)]
        exact hinv1.counts hnd g hg
  · rw [if_neg hsucc] at h
    simp only [Except.ok.injEq, Prod.mk.injEq] at h
    rw [← h.1]
    exact hinv1

/-! ### Invariant preservation through the orchestrator passes -/

theorem inv_primary {cat : Catalog} : ∀ {pairs : List (Section × Course)}
    {st st' : RunState}, Inv cat st → primary_pass cat pairs st = .ok st' →
    Inv cat st' := by
  intro pairs
  induction pairs with
  | nil =>
      intro st st' hinv h
      simp only [primary_pass, Except.ok.injEq] at h
      rw [← h]
      exact hinv
  | cons p rest ih =>
      intro st st' hinv h
      obtain ⟨sec, c⟩ := p
      rw [primary_pass] at h
      by_cases hdup : st.assigned_pairs.contains (sec.section_id, c.course_id) = true
      · rw [if_pos hdup] at h
        exact ih hinv h
      rw [if_neg hdup] at h
      rcases hfb : find_best_faculty_rl cat st c sec with _ | f
      · simp only [hfb] at h
        exact ih hinv h
      simp only [hfb] at h
      rcases hacs : assign_course_sessions_rl cat st c sec f with e | q
      · simp [hacs] at h
      obtain ⟨st1, ok⟩ := q
      simp only [hacs] at h
      have hm := find_best_faculty_mem hfb
      exact ih (inv_acs hinv hm.1 hm.2 hacs) h

theorem inv_backfill_pool {cat : Catalog} {f : Faculty} (hmem : f ∈ cat.faculty) :
    ∀ {pool : List (Section × Course)} {st st' : RunState}, Inv cat st →
    backfill_pool cat f pool st = .ok st' → Inv cat st' := by
  intro pool
  induction pool with
  | nil =>
      intro st st' hinv h
      simp only [backfill_pool, Except.ok.injEq] at h
      rw [← h]
      exact hinv
  | cons p rest ih =>
      intro st st' hinv h
      obtain ⟨sec, c⟩ := p
      rw [backfill_pool] at h
      by_cases h1 : st.assigned_pairs.contains (sec.section_id, c.course_id) = true
      · rw [if_pos h1] at h
        exact ih hinv h
      rw [if_neg h1] at h
      by_cases h2 : (!backfillElig f c) = true
      · rw [if_pos h2] at h
        exact ih hinv h
      rw [if_neg h2] at h
      by_cases h3 : (!has_faculty_capacity st f) = true
      · rw [if_pos h3] at h
        simp only [Except.ok.injEq] at h
        rw [← h]
        exact hinv
      rw [if_neg h3] at h
      have hcap : has_faculty_capacity st f = true := by
        revert h3
        cases has_faculty_capacity st f <;> simp
      rcases hacs : assign_course_sessions_rl cat st c sec f with e | q
      · simp [hacs] at h
      obtain ⟨st1, ok⟩ := q
      simp only [hacs] at h
      have hinv1 := inv_acs hinv hmem hcap hacs
      rcases ok with _ | _
      · simp only [Bool.false_eq_true, if_false] at h
        exact ih hinv1 h
      · simp only [if_true] at h
        simp only [Except.ok.injEq] at h
        rw [← h]
        exact hinv1

theorem inv_backfill {cat : Catalog} {assignments : List (Section × Course)} :
    ∀ {fs : List Faculty} {st st' : RunState},
    (∀ g ∈ fs, g ∈ cat.faculty) → Inv cat st →
    backfill_unassigned cat assignments fs st = .ok st' → Inv cat st' := by
  intro fs
  induction fs with
  | nil =>
      intro st st' _ hinv h
      simp only [backfill_unassigned, Except.ok.injEq] at h
      rw [← h]
      exact hinv
  | cons f rest ih =>
      intro st st' hsub hinv h
      simp only [backfill_unassigned] at h
      rcases hbp : backfill_pool cat f
          (if (backfill_matching cat st f).isEmpty then assignments
           else backfill_matching cat st f) st with e | st1
      · rw [hbp] at h
        exact absurd h (by simp)
      rw [hbp] at h
      exact ih (fun g hg => hsub g (List.mem_cons_of_mem f hg))
        (inv_backfill_pool (hsub f (List.mem_cons_self f rest)) hinv hbp) h

theorem inv_post_scan {cat : Catalog} {f : Faculty} (hmem : f ∈ cat.faculty) :
    ∀ {pairs : List (Section × Course)} {st st' : RunState} {found : Bool},
    Inv cat st → has_faculty_capacity st f = true →
    post_scan cat f pairs st = .ok (st', found) → Inv cat st' := by
  intro pairs
  induction pairs with
  | nil =>
      intro st st' found hinv _ h
      simp only [post_scan, Except.ok.injEq, Prod.mk.injEq] at h
      rw [← h.1]
      exact hinv
  | cons p rest ih =>
      intro st st' found hinv hcap h
      obtain ⟨sec, c⟩ := p
      rw [post_scan] at h
      by_cases hcnd : (c.program_id == some sec.program_id &&
          c.year_level == sec.year_level &&
          !(st.assigned_pairs.contains (sec.section_id, c.course_id)) &&
          pyIn (pyUpper c.course_code) (pyUpper f.specialization) &&
          !(empCategory f == EmpCat.affiliate && isMajorCourse c)) = true
      · rw [if_pos hcnd] at h
        rcases hacs : assign_course_sessions_rl cat st c sec f with e | q
        · simp [hacs] at h
        obtain ⟨st1, ok⟩ := q
        simp only [hacs] at h
        have hinv1 := inv_acs hinv hmem hcap hacs
        rcases ok with _ | _
        · simp only [Bool.false_eq_true, if_false] at h
          obtain ⟨hcnt, _⟩ := acs_false_fields hacs
          have hcap1 : has_faculty_capacity st1 f = true := by
            rw [has_faculty_capacity, countOf, hcnt]
            rw [has_faculty_capacity, countOf] at hcap
            exact hcap
          exact ih hinv1 hcap1 h
        · simp only [if_true] at h
          simp only [Except.ok.injEq, Prod.mk.injEq] at h
          rw [← h.1]
          exact hinv1
      · rw [if_neg hcnd] at h
        exact ih hinv hcap h

theorem inv_post_fill {cat : Catalog} {f : Faculty} (hmem : f ∈ cat.faculty) :
    ∀ {fuel : Nat} {st st' : RunState}, Inv cat st →
    post_fill_faculty cat f fuel st = .ok st' → Inv cat st' := by
  intro fuel
  induction fuel with
  | zero =>
      intro st st' hinv h
      simp only [post_fill_faculty, Except.ok.injEq] at h
      rw [← h]
      exact hinv
  | succ n ih =>
      intro st st' hinv h
      rw [post_fill_faculty] at h
      by_cases hcap : has_faculty_capacity st f = true
      · rw [if_pos hcap] at h
        rcases hps : post_scan cat f (postPairs cat) st with e | q
        · simp [hps] at h
        obtain ⟨st1, found⟩ := q
        simp only [hps] at h
        have hinv1 := inv_post_scan hmem hinv hcap hps
        rcases found with _ | _
        · simp only [Bool.false_eq_true, if_false, Except.ok.injEq] at h
          rw [← h]
          exact hinv1
        · simp only [if_true] at h
          exact ih hinv1 h
      · rw [if_neg hcap] at h
        simp only [Except.ok.injEq] at h
        rw [← h]
        exact hinv

theorem inv_post_pass {cat : Catalog} : ∀ {fs : List Faculty} {st st' : RunState},
    (∀ g ∈ fs, g ∈ cat.faculty) → Inv cat st →
    post_pass cat fs st = .ok st' → Inv cat st' := by
  intro fs
  induction fs with
  | nil =>
      intro st st' _ hinv h
      simp only [post_pass, Except.ok.injEq] at h
      rw [← h]
      exact hinv
  | cons f rest ih =>
      intro st st' hsub hinv h
      rw [post_pass] at h
      rcases hpf : post_fill_faculty cat f (MAX_COURSES_PERMANENT + 1) st with e | st1
      · simp [hpf] at h
      simp only [hpf] at h
      exact ih (fun g hg => hsub g (List.mem_cons_of_mem f hg))
        (inv_post_fill (hsub f (List.mem_cons_self f rest)) hinv hpf) h

/-! ### The initial state satisfies the invariant -/

theorem alookup_getD_zero [DecidableEq κ] : ∀ (m : List (κ × Nat)),
    (∀ kv ∈ m, kv.2 = 0) → ∀ k, (alookup m k).getD 0 = 0
  | [], _, k => by simp [alookup]
  | (k', v) :: t, hz, k => by
      by_cases hk : k' = k
      · have hv : v = 0 := hz (k', v) (List.mem_cons_self _ _)
        simp [alookup, hk, hv]
      · simp only [alookup, hk, if_false]
        exact alookup_getD_zero t (fun kv hkv => hz kv (List.mem_cons_of_mem _ hkv)) k

theorem aset_zero_values [DecidableEq κ] : ∀ (m : List (κ × Nat)) (k : κ),
    (∀ kv ∈ m, kv.2 = 0) → ∀ kv ∈ aset m k 0, kv.2 = 0
  | [], k, _ => by
      intro kv hkv
      simp only [aset, List.mem_singleton] at hkv
      rw [hkv]
  | (k', v) :: t, k, hz => by
      intro kv hkv
      by_cases hk : k' = k
      · simp only [aset, hk, if_true] at hkv
        rcases List.mem_cons.mp hkv with hkv | hkv
        · rw [hkv]
        · exact hz kv (List.mem_cons_of_mem _ hkv)
      · simp only [aset, hk, if_false] at hkv
        rcases List.mem_cons.mp hkv with hkv | hkv
        · rw [hkv]
          exact hz (k', v) (List.mem_cons_self _ _)
        · exact aset_zero_values t k
            (fun kv2 hkv2 => hz kv2 (List.mem_cons_of_mem _ hkv2)) kv hkv

theorem foldl_aset_zero [DecidableEq κ] {β : Type} (key : β → κ) :
    ∀ (l : List β) (m : List (κ × Nat)), (∀ kv ∈ m, kv.2 = 0) →
    ∀ kv ∈ l.foldl (fun acc b => aset acc (key b) 0) m, kv.2 = 0
  | [], _, hz => hz
  | b :: t, m, hz =>
      foldl_aset_zero key t (aset m (key b) 0) (aset_zero_values m (key b) hz)

/-- The state entering the primary pass satisfies the invariant: no
sessions, no pairs, all counters zero. -/
theorem inv_start (cat : Catalog) (assignments : List (Section × Course)) :
    Inv cat (computeBacklogs cat assignments
      { reset_environment cat (initRlEnvironment cat) with out := [] }) := by
  have hout : (computeBacklogs cat assignments
      { reset_environment cat (initRlEnvironment cat) with out := [] }).out = [] := rfl
  have hpairs : (computeBacklogs cat assignments
      { reset_environment cat (initRlEnvironment cat) with out := [] }).assigned_pairs
      = [] := rfl
  refine ⟨?_, ?_, ?_, ?_, ?_, ?_, ?_⟩
  · rw [hout]
    exact List.Pairwise.nil
  · intro s hs
    rw [hout] at hs
    cases hs
  · intro s hs
    rw [hout] at hs
    cases hs
  · intro s hs
    rw [hout] at hs
    cases hs
  · intro s hs
    rw [hout] at hs
    cases hs
  · intro p hp
    rw [hpairs] at hp
    cases hp
  · intro hnd g hg
    show (alookup ((initRlEnvironment cat).faculty_schedules.foldl
      (fun m kv => aset m kv.1 0) (initRlEnvironment cat).faculty_course_count)
      g.faculty_id).getD 0 ≤ get_faculty_course_limit g
    have hz0 : ∀ kv ∈ (initRlEnvironment cat).faculty_course_count, kv.2 = 0 := by
      intro kv hkv
      simp only [initRlEnvironment, List.mem_map] at hkv
      obtain ⟨f2, _, hf2⟩ := hkv
      rw [← hf2]
    have hz := foldl_aset_zero (fun kv : Nat × DaySched => kv.1)
      (initRlEnvironment cat).faculty_schedules
      (initRlEnvironment cat).faculty_course_count hz0
    rw [alookup_getD_zero _ hz g.faculty_id]
    exact Nat.zero_le _

/-- A successful full run satisfies the invariant. -/
theorem inv_run {cat : Catalog} {st : RunState} (h : runScheduler cat = .ok st) :
    Inv cat st := by
  rw [runScheduler, generate_schedule] at h
  simp only [] at h
  rcases h1 : primary_pass cat (buildAssignments cat)
      (computeBacklogs cat (buildAssignments cat)
        { reset_environment cat (initRlEnvironment cat) with out := [] }) with e | st1
  · simp only [h1] at h
    exact absurd h (by simp)
  simp only [h1] at h
  rcases h2 : backfill_unassigned cat (buildAssignments cat)
      (cat.faculty.filter (fun f => countOf st1 f.faculty_id == 0)) st1 with e | st2
  · simp only [h2] at h
    exact absurd h (by simp)
  simp only [h2] at h
  have i0 := inv_start cat (buildAssignments cat)
  have i1 := inv_primary i0 h1
  have i2 := inv_backfill (fun g hg => (List.mem_filter.mp hg).1) i1 h2
  refine inv_post_pass ?_ i2 h
  intro g hg
  have hg2 := mem_sortLe.mp hg
  exact (List.mem_filter.mp hg2).1

/-! ### Claim C8 — partial placement is discarded without rollback -/

/-- Claim C8: if exactly one of the two sessions of a pair places (the
Face-to-face placed and the Online failed, or vice versa), then
`_assign_course_sessions_rl` returns failure and leaves `assigned_pairs`,
`faculty_course_count` and `faculty_spec_backlog` unchanged, while every
ledger entry (and session) committed by the successful session remains:
the resulting state only extends the ledgers (no rollback). -/
theorem c8_partial_no_rollback (cat : Catalog) (st : RunState) (c : Course)
    (sec : Section) (f : Faculty) (st1 : RunState) (d? : Option Day) (ok : Bool)
    (hpair : st.assigned_pairs.contains (sec.section_id, c.course_id) = false)
    (hcore : assign_course_sessions_core cat st c sec f = .ok (st1, d?, ok))
    (hmix : (d?.isSome = true ∧ ok = false) ∨ (d? = none ∧ ok = true)) :
    assign_course_sessions_rl cat st c sec f = .ok (st1, false) ∧
    st1.faculty_course_count = st.faculty_course_count ∧
    st1.assigned_pairs = st.assigned_pairs ∧
    st1.faculty_spec_backlog = st.faculty_spec_backlog ∧
    LedgerExtends st st1 := by
  have hext := assign_course_sessions_core_extends hcore
  obtain ⟨hc, hp, hb, hl⟩ := hext
  have hfail : (d?.isSome && ok) = false := by
    rcases hmix with ⟨h1, h2⟩ | ⟨h1, h2⟩
    · rw [h2, Bool.and_false]
    · rw [h1]
      rfl
  refine ⟨?_, hc, hp, hb, hl⟩
  rw [assign_course_sessions_rl]
  simp only [hpair, Bool.false_eq_true, if_false, hcore, hfail]

/-- Claim C8, witness: in a concrete catalog with no laboratory room the
Face-to-face session fails while the Online session places; the call
returns failure with the bookkeeping untouched. -/
theorem c8_partial_no_rollback_witness :
    assign_course_sessions_rl c8Cat c8St c8Course c8Sec c8F = .ok (c8Res.1, false) ∧
    c8Res.1.assigned_pairs = c8St.assigned_pairs := by
  have h := c8_partial_no_rollback c8Cat c8St c8Course c8Sec c8F c8Res.1 c8Res.2.1
    c8Res.2.2 (by decide) rfl (by decide)
  exact ⟨h.1, h.2.2.1⟩

/-! ### Claim C1 — no double-booking in the generated schedule -/

/-- Claim C1: for every pair of sessions in the output of
`generate_schedule`, if the two sessions share the same faculty, or the
same room that resolves in the catalog to a non-`online` room
(`physRoomCheck`), or the same section, and are placed on the same day,
then their time slots do not overlap (half-open overlap test). -/
theorem c1_no_overlap (cat : Catalog) (st : RunState)
    (hrun : runScheduler cat = .ok st) (i j : Fin st.out.length) (hij : i < j)
    (hday : (st.out.get i).day = (st.out.get j).day)
    (hshare : (st.out.get i).faculty_id = (st.out.get j).faculty_id ∨
      ((st.out.get i).room_id = (st.out.get j).room_id ∧
        physRoomCheck cat (st.out.get i).room_id = true) ∨
      (st.out.get i).section_id = (st.out.get j).section_id) :
    time_slots_overlap (st.out.get i).slot (st.out.get j).slot = false := by
  have hpw := (inv_run hrun).pw
  have hnc : NoClash cat (st.out.get i) (st.out.get j) := by
    rw [List.pairwise_iff_get] at hpw
    exact hpw i j hij
  obtain ⟨hf, hs, hr⟩ := hnc hday
  rcases hshare with h | h | h
  · exact hf h
  · exact hr h.1 h.2
  · exact hs h

/-- Claim C1, witness: in a concrete run two Face-to-face sessions of the
same faculty land on the same day in non-overlapping slots. -/
theorem c1_no_overlap_witness :
    time_slots_overlap (c1State.out.get ⟨0, by decide⟩).slot
      (c1State.out.get ⟨2, by decide⟩).slot = false :=
  c1_no_overlap c1Cat c1State rfl ⟨0, by decide⟩ ⟨2, by decide⟩ (by decide)
    (by decide) (Or.inl (by decide))

/-! ### Claim C2 — sessions of an assigned pair -/

/-- Claim C2 (amended): every (section, course) pair recorded in
`assigned_pairs` has at least one Face-to-face and at least one Online
session in the output, with such a Face-to-face/Online pair on two
different days; phantom sessions left by earlier failed attempts for the
same pair may additionally exist, so "exactly one" of each does not hold. -/
theorem c2_assigned_pair_sessions (cat : Catalog) (st : RunState)
    (hrun : runScheduler cat = .ok st) (p : Nat × Nat)
    (hp : p ∈ st.assigned_pairs) : PairSess st.out p :=
  (inv_run hrun).pairsOk p hp

/-- Claim C2, witness: the assigned pair of a concrete run has its two
sessions on two different days. -/
theorem c2_assigned_pair_sessions_witness : PairSess c1State.out (0, 0) :=
  c2_assigned_pair_sessions c1Cat c1State rfl (0, 0) (by decide)

/-- Claim C2, counterexample: a successful run in which the assigned pair
(section 4, course 101) has TWO Face-to-face sessions in the output (a
phantom from a failed earlier attempt plus the one of the succeeding
retry), refuting "exactly one Face-to-face session". -/
theorem c2_counterexample :
    errOf (runScheduler c2Cat) = none ∧
    (4, 101) ∈ c2State.assigned_pairs ∧
    (c2State.out.filter (fun s => s.section_id == 4 && s.course_id == 101 &&
      s.delivery == Mode.f2f)).length = 2 := by decide

/-! ### Claim C3 — faculty capacity limits -/

/-- Claim C3: in the final state of a successful run (and, by the
preservation lemmas, at every intermediate state), each faculty member of
a catalog with unique faculty ids has an assigned-course count of at most
its employment-type limit (10 for permanent/full-time, 5 otherwise). -/
theorem c3_capacity (cat : Catalog) (st : RunState)
    (hrun : runScheduler cat = .ok st) (hnd : NodupFacultyIds cat)
    (f : Faculty) (hf : f ∈ cat.faculty) :
    countOf st f.faculty_id ≤ get_faculty_course_limit f :=
  (inv_run hrun).counts hnd f hf

/-- Claim C3, witness: the concrete run assigns one course to the single
part-time faculty, within its limit of 5. -/
theorem c3_capacity_witness :
    countOf c3State 9 ≤ get_faculty_course_limit ⟨9, "Part-time", "", none⟩ :=
  c3_capacity c3Cat c3State rfl (by unfold NodupFacultyIds; decide)
    ⟨9, "Part-time", "", none⟩ (by decide)

/-! ### Claim C4 — laboratory rooms for major courses -/

/-- Claim C4, counterexample: in a successful concrete run a major
course's Online session uses the online room, so "every session of a
major course uses a laboratory room" is false as stated. -/
theorem c4_counterexample :
    errOf (runScheduler c4Cat) = none ∧
    ¬ (∀ s ∈ c4State.out, pyLower s.course_type = "major" →
        pyLower s.room_type = "laboratory") := by decide

/-- Claim C4 (amended): every FACE-TO-FACE session of a course of type
"major" (case-insensitive) uses a room of type laboratory; Online
sessions of major courses use the online (or fallback) room instead. -/
theorem c4_major_f2f_lab (cat : Catalog) (st : RunState)
    (hrun : runScheduler cat = .ok st) (s : Session) (hs : s ∈ st.out)
    (hf2f : s.delivery = Mode.f2f) (hmaj : pyLower s.course_type = "major") :
    pyLower s.room_type = "laboratory" :=
  ((inv_run hrun).shape s hs hf2f).1 hmaj

/-- Claim C4, witness: the concrete major pair's Face-to-face session is
in the laboratory room. -/
theorem c4_major_f2f_lab_witness :
    pyLower (c4State.out.get ⟨0, by decide⟩).room_type = "laboratory" :=
  c4_major_f2f_lab c4Cat c4State rfl (c4State.out.get ⟨0, by decide⟩)
    (by decide) (by decide) (by decide)

/-! ### Claim C9 — the fallback online room crashes the commit -/

/-- Claim C9: the error branch is REACHABLE, contradicting the claim.
With no online-type room in the catalog, the Online session is attempted
with the synthetic fallback room (id −1); the room ledger has no entry
for that id, so the commit's room-ledger indexing access raises (a
`KeyError` in the source), aborting the whole run. -/
theorem c9_fallback_commit_raises :
    errOf (runScheduler c9Cat) = some SchedErr.roomKey := by decide

/-! ### Claim C10 — program affinity of session rooms -/

/-- Claim C10, counterexample: in a successful concrete run the Online
session of a section in program 2 uses the catalog's online room owned by
program 1, so the claim is false for online sessions. -/
theorem c10_counterexample :
    errOf (runScheduler c10Cat) = none ∧
    ¬ (∀ s ∈ c10State.out, s.room_program = none ∨
        s.room_program = some s.section_program) := by decide

/-- Claim C10 (amended): for every FACE-TO-FACE session, the room's
program id is null or equals the program id of the session's section; the
Online session instead uses the first online-type catalog room regardless
of its owning program. -/
theorem c10_f2f_room_program (cat : Catalog) (st : RunState)
    (hrun : runScheduler cat = .ok st) (s : Session) (hs : s ∈ st.out)
    (hf2f : s.delivery = Mode.f2f) :
    s.room_program = none ∨ s.room_program = some s.section_program :=
  ((inv_run hrun).shape s hs hf2f).2

/-- Claim C10, witness: the concrete Face-to-face session uses the
general-purpose room. -/
theorem c10_f2f_room_program_witness :
    (c10State.out.get ⟨0, by decide⟩).room_program = none ∨
    (c10State.out.get ⟨0, by decide⟩).room_program =
      some (c10State.out.get ⟨0, by decide⟩).section_program :=
  c10_f2f_room_program c10Cat c10State rfl (c10State.out.get ⟨0, by decide⟩)
    (by decide) (by decide)

end SW
